import Mathlib

/-!
# Timeline model of `src/core/track.cpp`

A shallow embedding of the block (`trackContentObject`) and track (`track`)
operations of `track.cpp`, and theorems about them.

Conventions of the embedding

* `midiTime` and `tick` are tick counts.  The arithmetic of the source is
  `int` arithmetic (`midiTime` converts implicitly from and to `int`); values
  are embedded in `Int`.  The sums and differences that `insertTact` and
  `removeTact` compute are wrapped to 32 bits (`wrap32`), as the machine
  computes them.  The journal deltas of `movePosition` and `changeLength`
  are left as `Int` differences; a theorem that states such a delta assumes
  that it fits into an `int` (`isInt`), where both agree.
* Objects the source reaches through pointers live in a store, a function
  from addresses (`Nat`) to object states.  A collection of pointers
  (`tcoVector`, `trackList`) is a list of addresses, so two entries are the
  same object exactly when the addresses are equal, as in the source.
* A member function becomes a function from the state before the call to the
  state after it.  Calls that leave the model (signals, the song's
  `updateLength`) are appended to the `effects` trace of the calling object.
* The address a `new` expression returns is an argument of the function that
  allocates (`_new`, `next`).  An access outside a vector gives `none`; the
  loops that delete blocks run on fuel and end in `Except.error` on `erase`
  of the `end()` iterator.
* `midiTime::ticksPerTact()` is the argument `ticksPerTact`.
-/

namespace Lmms

/-! ## Time -/

/-- Modelled from the spec: `midiTime` of midi_time.h, which is not among the
sources.  "Time unit: an integer tick count"; the class converts implicitly
from and to `int`, and the source clamps explicitly where it wants a clamp
(`tMax( ..., 0 )` in `removeTact`). -/
abbrev midiTime := Int

/-- A number of ticks (`tick` of the source, a signed integer). -/
abbrev tick := Int

/-- The values of a 32-bit `int`: `INT_MIN` to `INT_MAX`. -/
abbrev isInt (x : Int) : Prop := -2147483648 ≤ x ∧ x ≤ 2147483647

/-- The `int` the machine stores for the mathematical result `x` of an `int`
addition or subtraction: `x` modulo `2^32`, in the range `INT_MIN` to
`INT_MAX` (two's complement). -/
def wrap32 (x : Int) : Int := (x + 2147483648) % 4294967296 - 2147483648

/-! ## Journal -/

/-- Action ids of a journal entry.  `Move` and `Resize` are the two ids
`trackContentObject` declares (enum `Actions` of track.h); `other n` stands
for every other id an entry can carry. -/
inductive t_action_id where
  | Move : t_action_id
  | Resize : t_action_id
  | other (n : Nat) : t_action_id
  deriving DecidableEq, Repr

/-- A journal entry: an action id and its payload.  For `Move` and `Resize`
the payload is the `int` that `data().toInt()` reads back. -/
structure journalEntry where
  actionID : t_action_id
  data : Int
  deriving DecidableEq, Repr

/-- What a block's member functions do outside of the block itself. -/
inductive tcoEffect where
  | updateLength : tcoEffect
  | positionChanged : tcoEffect
  | lengthChanged : tcoEffect
  | dataChanged : tcoEffect
  deriving DecidableEq, Repr

/-! ## trackContentObject -/

/-- State of one `trackContentObject`.  The fields below `m_mutedModel` belong
to its `journallingObject` base: the journalling flag, the stack used by
`saveJournallingState` and `restoreJournallingState`, and the undo and redo
stacks of recorded entries (ends of the lists are the tops). -/
structure trackContentObject where
  m_startPosition : midiTime
  m_length : midiTime
  m_mutedModel : Bool
  m_journalling : Bool
  m_journallingStateStack : List Bool
  undoStack : List journalEntry
  redoStack : List journalEntry
  effects : List tcoEffect
  deriving DecidableEq, Repr

namespace trackContentObject

/-- Accessor `startPosition()`. -/
def startPosition (self : trackContentObject) : midiTime := self.m_startPosition

/-- Accessor `length()`. -/
def length (self : trackContentObject) : midiTime := self.m_length

/-- Modelled from the spec: `endPosition()` of track.h, which is not among the
sources.  "Invariant: `endPosition = startPosition + length`". -/
def endPosition (self : trackContentObject) : midiTime :=
  self.m_startPosition + self.m_length

/-- Accessor `isJournalling()`. -/
def isJournalling (self : trackContentObject) : Bool := self.m_journalling

/-- Modelled from the spec: `journallingObject::addJournalEntry`, which is not
among the sources.  "`record(entry)`: appends to the owning entity's undo
stack; clears its redo stack"; the journalling flag "allows a sequence of
internal mutations to bypass journal recording". -/
def addJournalEntry (self : trackContentObject) (_je : journalEntry) :
    trackContentObject :=
  if self.m_journalling then
    { self with undoStack := self.undoStack ++ [_je], redoStack := [] }
  else
    self

/-- Modelled from the spec: `journallingObject::setJournalling`, which is not
among the sources; it sets the journalling flag. -/
def setJournalling (self : trackContentObject) (_sr : Bool) : trackContentObject :=
  { self with m_journalling := _sr }

/-- Modelled from the spec: `journallingObject::saveJournallingState`, which is
not among the sources.  It opens a "scoped suspension": the current flag is
pushed and the flag is set to `_new_state`. -/
def saveJournallingState (self : trackContentObject) (_new_state : Bool) :
    trackContentObject :=
  { self with
    m_journallingStateStack := self.m_journalling :: self.m_journallingStateStack
    m_journalling := _new_state }

/-- Modelled from the spec: `journallingObject::restoreJournallingState`, which
is not among the sources.  It closes the scope: the flag "must always be
restored to its prior value", the one pushed last. -/
def restoreJournallingState (self : trackContentObject) : trackContentObject :=
  match self.m_journallingStateStack with
  | [] => self
  | b :: rest => { self with m_journalling := b, m_journallingStateStack := rest }

/-- The source's `trackContentObject::movePosition` (track.cpp 152-161).  The
payload of the entry, `m_startPosition - _pos`, is an `int` difference in the
source; here it is the `Int` difference, which is the same number whenever it
fits into an `int` (`isInt`). -/
def movePosition (self : trackContentObject) (_pos : midiTime) : trackContentObject :=
  let s1 :=
    if self.m_startPosition ≠ _pos then
      let s := self.addJournalEntry ⟨t_action_id.Move, self.m_startPosition - _pos⟩
      { s with m_startPosition := _pos
               effects := s.effects ++ [tcoEffect.updateLength] }
    else
      self
  { s1 with effects := s1.effects ++ [tcoEffect.positionChanged] }

/-- The source's `trackContentObject::changeLength` (track.cpp 173-182).  The
payload of the entry, `m_length - _length`, is an `int` difference in the
source; here it is the `Int` difference, which is the same number whenever it
fits into an `int` (`isInt`). -/
def changeLength (self : trackContentObject) (_length : midiTime) : trackContentObject :=
  let s1 :=
    if self.m_length ≠ _length then
      let s := self.addJournalEntry ⟨t_action_id.Resize, self.m_length - _length⟩
      { s with m_length := _length
               effects := s.effects ++ [tcoEffect.updateLength] }
    else
      self
  { s1 with effects := s1.effects ++ [tcoEffect.lengthChanged] }

/-- The source's `trackContentObject::undoStep` (track.cpp 195-208). -/
def undoStep (self : trackContentObject) (_je : journalEntry) : trackContentObject :=
  let s := self.saveJournallingState false
  let s :=
    match _je.actionID with
    | t_action_id.Move => s.movePosition (s.startPosition + _je.data)
    | t_action_id.Resize => s.changeLength (s.length + _je.data)
    | t_action_id.other _ => s
  s.restoreJournallingState

/-- The source's `trackContentObject::redoStep` (track.cpp 217-221). -/
def redoStep (self : trackContentObject) (_je : journalEntry) : trackContentObject :=
  let je : journalEntry := ⟨_je.actionID, -_je.data⟩
  self.undoStep je

/-- The entry on top of the undo stack: the one recorded last. -/
def lastRecorded (self : trackContentObject) : Option journalEntry :=
  self.undoStack.getLast?

end trackContentObject

/-! ## Stores and collections -/

/-- Address of a `trackContentObject` (a `trackContentObject *`). -/
abbrev tcoPtr := Nat

/-- The blocks that exist, by address. -/
abbrev tcoStore := tcoPtr → trackContentObject

/-- The source's `tcoVector`, a vector of block pointers. -/
abbrev tcoVector := List tcoPtr

/-- Address of a `track` (a `track *`). -/
abbrev trackPtr := Nat

/-- The source's `trackContainer::trackList`, a vector of track pointers. -/
abbrev trackList := List trackPtr

/-- Element access `v[n]` with an `int` index; `none` outside the vector. -/
def tcoVector.index (v : tcoVector) (n : Int) : Option tcoPtr :=
  if 0 ≤ n then v[n.toNat]? else none

/-- Assignment `st[p] = x` in a store. -/
def setAt {α : Type} (st : Nat → α) (p : Nat) (x : α) : Nat → α :=
  fun q => if q = p then x else st q

/-! ## track -/

/-- The source's `TrackTypes` (enum of track.h), with the five variants the
data model names; `track::create` switches on them by these names. -/
inductive TrackTypes where
  | InstrumentTrack : TrackTypes
  | BBTrack : TrackTypes
  | SampleTrack : TrackTypes
  | AutomationTrack : TrackTypes
  | HiddenAutomationTrack : TrackTypes
  deriving DecidableEq, Repr

/-- State of one `track`: its type, the mute and solo models, the scratch flag
`m_mutedBeforeSolo` and the collection of blocks, in collection order. -/
structure track where
  m_type : TrackTypes
  m_mutedModel : Bool
  m_soloModel : Bool
  m_mutedBeforeSolo : Bool
  m_trackContentObjects : tcoVector
  deriving DecidableEq, Repr

/-- The tracks that exist, by address. -/
abbrev trackStore := trackPtr → track

namespace track

/-- Accessor `isMuted()`: the value of the mute model. -/
def isMuted (self : track) : Bool := self.m_mutedModel

/-- Setter `setMuted( _val )`: sets the value of the mute model. -/
def setMuted (self : track) (_val : Bool) : track :=
  { self with m_mutedModel := _val }

/-- The source's `track::numOfTCOs` (track.cpp 1794-1797). -/
def numOfTCOs (self : track) : Int := self.m_trackContentObjects.length

/-- Inner loop of `getTCOsInRange` with the `push_back` that follows it
(track.cpp 1883-1898): `tco`, whose start is `s`, is inserted before the first
element of `_tco_v` whose start is `>= s`, or appended when there is none. -/
def insertInOrder (st : tcoStore) (tco : tcoPtr) (s : Int) : tcoVector → tcoVector
  | [] => [tco]
  | it :: rest =>
    if (st it).startPosition ≥ s then
      tco :: it :: rest
    else
      it :: insertInOrder st tco s rest

/-- Outer loop of `getTCOsInRange` (track.cpp 1872-1900) over the blocks still
to visit; the second list is `_tco_v`. -/
def getTCOsInRangeLoop (st : tcoStore) (_start _end : midiTime) :
    tcoVector → tcoVector → tcoVector
  | [], _tco_v => _tco_v
  | tco :: rest, _tco_v =>
    let s : Int := (st tco).startPosition
    let e : Int := (st tco).endPosition
    if s ≤ _end ∧ e ≥ _start then
      getTCOsInRangeLoop st _start _end rest (insertInOrder st tco s _tco_v)
    else
      getTCOsInRangeLoop st _start _end rest _tco_v

/-- The source's `track::getTCOsInRange` (track.cpp 1869-1901).  The result is
the track after the call and the output vector `_tco_v` after the call. -/
def getTCOsInRange (self : track) (st : tcoStore) (_tco_v : tcoVector)
    (_start _end : midiTime) : track × tcoVector :=
  (self, getTCOsInRangeLoop st _start _end self.m_trackContentObjects _tco_v)

/-- The source's `track::swapPositionOfTCOs` (track.cpp 1914-1925).  The source
does no range checking; an index outside the vector gives `none`. -/
def swapPositionOfTCOs (self : track) (st : tcoStore) (_tco_num1 _tco_num2 : Int) :
    Option (track × tcoStore) := do
  let v := self.m_trackContentObjects
  -- qSwap( m_trackContentObjects[_tco_num1], m_trackContentObjects[_tco_num2] )
  let x1 ← v.index _tco_num1
  let x2 ← v.index _tco_num2
  let v1 : tcoVector := (v.set _tco_num1.toNat x2).set _tco_num2.toNat x1
  -- const midiTime pos = m_trackContentObjects[_tco_num1]->startPosition()
  let p1 ← v1.index _tco_num1
  let pos := (st p1).startPosition
  -- m_trackContentObjects[_tco_num1]->movePosition( ...[_tco_num2]->startPosition() )
  let p2 ← v1.index _tco_num2
  let st1 := setAt st p1 ((st p1).movePosition (st p2).startPosition)
  -- m_trackContentObjects[_tco_num2]->movePosition( pos )
  let st2 := setAt st1 p2 ((st1 p2).movePosition pos)
  pure ({ self with m_trackContentObjects := v1 }, st2)

/-- First loop of `toggleSolo` (track.cpp 2012-2024): whether a track of the
list other than `this` has its solo model set. -/
def soloBefore (st : trackStore) (this : trackPtr) : trackList → Bool
  | [] => false
  | it :: rest =>
    if it ≠ this then
      if (st it).m_soloModel then true else soloBefore st this rest
    else
      soloBefore st this rest

/-- One iteration of the second loop of `toggleSolo` (track.cpp 2030-2047), on
the track at address `it`. -/
def toggleSoloStep (this : trackPtr) (solo solo_before : Bool) (st : trackStore)
    (it : trackPtr) : trackStore :=
  if solo then
    -- save mute-state in case no track was solo before
    let st1 :=
      if !solo_before then
        setAt st it { st it with m_mutedBeforeSolo := (st it).isMuted }
      else
        st
    let st2 := setAt st1 it ((st1 it).setMuted (if it = this then false else true))
    if it ≠ this then
      setAt st2 it { st2 it with m_soloModel := false }
    else
      st2
  else if !solo_before then
    setAt st it ((st it).setMuted (st it).m_mutedBeforeSolo)
  else
    st

/-- The source's `track::toggleSolo` (track.cpp 2008-2048) on the track at
address `this`, `tl` being `m_trackContainer->tracks()`.

The view of a track connects the `dataChanged` signal of its solo model to
`toggleSolo` (track.cpp 2111).  Clearing the solo model of another track `U`
inside the loop can therefore re-enter `toggleSolo` on `U`; that call runs with
`U`'s flag cleared and the flag of `this` set, so it finds `solo_before` true
and `solo` false and changes nothing (`toggleSolo_reentered` below).  The
embedding leaves the nested call out. -/
def toggleSolo (tl : trackList) (st : trackStore) (this : trackPtr) : trackStore :=
  let solo_before := soloBefore st this tl
  let solo := (st this).m_soloModel
  tl.foldl (toggleSoloStep this solo solo_before) st

/-- The solo flag of the track at `t` set to `v` (the state in which its
`dataChanged` signal calls `toggleSolo`). -/
def withSolo (st : trackStore) (t : trackPtr) (v : Bool) : trackStore :=
  setAt st t { st t with m_soloModel := v }

/-- A solo activation on track `t`: its solo flag goes from false to true and
`toggleSolo` runs on it. -/
def activateSolo (tl : trackList) (st : trackStore) (t : trackPtr) : trackStore :=
  toggleSolo tl (withSolo st t true) t

/-- Un-soloing track `t`: its solo flag goes from true to false and
`toggleSolo` runs on it. -/
def deactivateSolo (tl : trackList) (st : trackStore) (t : trackPtr) : trackStore :=
  toggleSolo tl (withSolo st t false) t

/-- A solo session: solo activations on the tracks of the list, one after the
other, then un-soloing the track activated last. -/
def soloSession (tl : trackList) (st : trackStore) : List trackPtr → trackStore
  | [] => st
  | t :: ts =>
    deactivateSolo tl ((t :: ts).foldl (activateSolo tl) st) (ts.getLastD t)

/-- What one iteration of the second loop of `toggleSolo` does to the state of
the track it visits (`isThis`: the visited track is `this`); see
`toggleSoloStep_eq`. -/
def toggleSoloOn (isThis solo solo_before : Bool) (u : track) : track :=
  if solo then
    { u with
      m_mutedBeforeSolo := if solo_before then u.m_mutedBeforeSolo else u.m_mutedModel
      m_mutedModel := !isThis
      m_soloModel := if isThis then u.m_soloModel else false }
  else if solo_before then u
  else { u with m_mutedModel := u.m_mutedBeforeSolo }

/-- The state of the solo domain of the list `tl` after activations that
started from the store `orig`: `t` is in the list and is the one track of the
list whose solo flag is set, and every track's snapshot is its mute flag in
`orig`. -/
def soloDomain (tl : trackList) (orig st : trackStore) (t : trackPtr) : Prop :=
  t ∈ tl ∧
  (∀ u ∈ tl, (st u).m_mutedBeforeSolo = (orig u).m_mutedModel) ∧
  (∀ u ∈ tl, (st u).m_soloModel = decide (u = t))

/-- Modelled from the spec: `tMax` of templates.h, which is not among the
sources; the larger of its two arguments ("remove with clamp to 0"). -/
def tMax (_a _b : Int) : Int := if _a > _b then _a else _b

/-- One iteration of the loop of `insertTact` (track.cpp 1941-1949), on the
block at address `it`; `ticksPerTact` is the value of
`midiTime::ticksPerTact()`.  The sum `( *it )->startPosition() +
midiTime::ticksPerTact()` is an `int` sum. -/
def insertTactStep (ticksPerTact : tick) (_pos : midiTime) (st : tcoStore)
    (it : tcoPtr) : tcoStore :=
  if (st it).startPosition ≥ _pos then
    setAt st it ((st it).movePosition (wrap32 ((st it).startPosition + ticksPerTact)))
  else
    st

/-- The source's `track::insertTact` (track.cpp 1937-1950).  The result is the
track and the blocks after the call. -/
def insertTact (self : track) (ticksPerTact : tick) (st : tcoStore) (_pos : midiTime) :
    track × tcoStore :=
  (self, self.m_trackContentObjects.foldl (insertTactStep ticksPerTact _pos) st)

/-- One iteration of the loop of `removeTact` (track.cpp 1963-1971), on the
block at address `it`.  The difference `( *it )->startPosition() -
midiTime::ticksPerTact()` is an `int` difference. -/
def removeTactStep (ticksPerTact : tick) (_pos : midiTime) (st : tcoStore)
    (it : tcoPtr) : tcoStore :=
  if (st it).startPosition ≥ _pos then
    setAt st it
      ((st it).movePosition (tMax (wrap32 ((st it).startPosition - ticksPerTact)) 0))
  else
    st

/-- The source's `track::removeTact` (track.cpp 1959-1972).  The result is the
track and the blocks after the call. -/
def removeTact (self : track) (ticksPerTact : tick) (st : tcoStore) (_pos : midiTime) :
    track × tcoStore :=
  (self, self.m_trackContentObjects.foldl (removeTactStep ticksPerTact _pos) st)

/-- What one iteration of the loop of `insertTact` does to the block it
visits; see `insertTactStep_eq`. -/
def insertTactOn (ticksPerTact : tick) (_pos : midiTime) (x : trackContentObject) :
    trackContentObject :=
  if x.startPosition ≥ _pos then
    x.movePosition (wrap32 (x.startPosition + ticksPerTact))
  else x

/-- What one iteration of the loop of `removeTact` does to the block it
visits; see `removeTactStep_eq`. -/
def removeTactOn (ticksPerTact : tick) (_pos : midiTime) (x : trackContentObject) :
    trackContentObject :=
  if x.startPosition ≥ _pos then
    x.movePosition (tMax (wrap32 (x.startPosition - ticksPerTact)) 0)
  else x

/-- Loop of `track::length` (track.cpp 1986-1995) over the blocks still to
visit; the last argument is the local `last`. -/
def lengthLoop (st : tcoStore) : tcoVector → tick → tick
  | [], last => last
  | it :: rest, last =>
    let cur : tick := (st it).endPosition
    if cur > last then lengthLoop st rest cur else lengthLoop st rest last

/-- The source's `track::length` (track.cpp 1983-1998); the `int` division of
the source truncates toward zero. -/
def length (self : track) (ticksPerTact : tick) (st : tcoStore) : Int :=
  Int.tdiv (lengthLoop st self.m_trackContentObjects 0) ticksPerTact

/-- Search `qFind( begin, end, _tco )` of `removeTCO` and `getTCONum`: the
position of the first entry equal to `_tco`, or the size of the vector (the
`end()` iterator) when there is none. -/
def qFind : tcoVector → tcoPtr → Nat
  | [], _ => 0
  | x :: rest, _tco => if x = _tco then 0 else qFind rest _tco + 1

/-- The source's `track::addTCO` (track.cpp 1758-1767): `push_back`.  The
signal `trackContentObjectAdded` goes to the view and is not modelled. -/
def addTCO (self : track) (_tco : tcoPtr) : track :=
  { self with m_trackContentObjects := self.m_trackContentObjects ++ [_tco] }

/-- The source's `track::removeTCO` (track.cpp 1776-1786).  The call
`setModified` acts on the song and is not modelled. -/
def removeTCO (self : track) (_tco : tcoPtr) : track :=
  let it := qFind self.m_trackContentObjects _tco
  if it ≠ self.m_trackContentObjects.length then
    { self with m_trackContentObjects := self.m_trackContentObjects.eraseIdx it }
  else
    self

/-- The source's `track::getTCONum` (track.cpp 1835-1851).  The result is the
track after the call and the number returned; the warning printed when the
block is not found is not modelled. -/
def getTCONum (self : track) (_tco : tcoPtr) : track × Int :=
  let it := qFind self.m_trackContentObjects _tco
  if it ≠ self.m_trackContentObjects.length then
    (self, (it : Int))
  else
    (self, 0)

end track

namespace trackContentObject

/-- The members of a block as the initialiser list of the constructor leaves
them (track.cpp 110-114): start and length 0, not muted; the journalling base
starts with journalling enabled and an empty journal. -/
def initial : trackContentObject :=
  { m_startPosition := 0, m_length := 0, m_mutedModel := false, m_journalling := true,
    m_journallingStateStack := [], undoStack := [], redoStack := [], effects := [] }

/-- Body of the constructor `trackContentObject::trackContentObject`
(track.cpp 116-120) after `m_track->addTCO( this )`. -/
def constructed : trackContentObject :=
  (((initial.setJournalling false).movePosition 0).changeLength 0).setJournalling true

end trackContentObject

/-- Modelled from the spec: the fragment that a block's `saveState` writes and
its `restoreState` reads (the block classes are not among the sources).  A
save and restore "produces a block with identical `startPosition`, `length`,
`muted`". -/
structure tcoElement where
  pos : midiTime
  len : midiTime
  muted : Bool
  deriving DecidableEq, Repr

/-- Child nodes of a saved track, as `loadSettings` tells them apart: the
element named `nodeName()` with the track-specific settings, an element a
block wrote, an element with a non-zero `metadata` attribute, and a node that
is no element. -/
inductive domNode where
  | trackSpecific : domNode
  | tco (e : tcoElement) : domNode
  | metadata : domNode
  | noElement : domNode
  deriving DecidableEq, Repr

/-- The `track` element that `saveSettings` fills: the attributes `type` and
`muted` and the child nodes in document order. -/
structure trackElement where
  typeAttr : TrackTypes
  mutedAttr : Bool
  children : List domNode
  deriving DecidableEq, Repr

namespace trackContentObject

/-- Modelled from the spec: `saveState` of a block, which is not among the
sources; it writes start position, length and mute flag. -/
def saveState (self : trackContentObject) : tcoElement :=
  { pos := self.startPosition, len := self.length, muted := self.m_mutedModel }

/-- Modelled from the spec: `restoreState` of a block, which is not among the
sources; it puts back start position, length and mute flag. -/
def restoreState (self : trackContentObject) (e : tcoElement) : trackContentObject :=
  { (self.movePosition e.pos).changeLength e.len with m_mutedModel := e.muted }

end trackContentObject

namespace track

/-- The constructor `trackContentObject::trackContentObject( _track )`
(track.cpp 109-121) for a block allocated at address `_new`: the block adds
itself to the track and runs the constructor body. -/
def newTCO (self : track) (st : tcoStore) (_new : tcoPtr) : track × tcoStore :=
  (self.addTCO _new, setAt st _new trackContentObject.constructed)

/-- Modelled from the spec: `createTCO( _pos )`, pure virtual in `track` and
implemented by the track classes, which are not among the sources.
"`createBlock(position)`: factory": a block is constructed on the track, at
the address `_new` the allocation returns, by the constructor of the sources
(`newTCO`), which leaves it at tick 0 with length 0.  The factory does not
move the block: where the sources want a created block at `_pos` the caller
moves it there after the call (`tco->movePosition( pos )`, track.cpp 1080 and
1114), so `_pos` is what the track class is told, not where the block is
put. -/
def createTCO (self : track) (st : tcoStore) (_new : tcoPtr) (_pos : midiTime) :
    track × tcoStore :=
  self.newTCO st _new

/-- The source's `track::getTCO` (track.cpp 1815-1825); `_new` is the address
of the block created when the number is too large.  The access
`m_trackContentObjects[_tco_num]` outside the vector gives `none`.  The product
`_tco_num * midiTime::ticksPerTact()` is only handed to `createTCO`; `getTCO`
does not move the block it gets back. -/
def getTCO (self : track) (ticksPerTact : tick) (st : tcoStore) (_new : tcoPtr)
    (_tco_num : Int) : Option (tcoPtr × track × tcoStore) :=
  if _tco_num < (self.m_trackContentObjects.length : Int) then
    match self.m_trackContentObjects.index _tco_num with
    | some p => some (p, self, st)
    | none => none
  else
    let r := self.createTCO st _new (_tco_num * ticksPerTact)
    some (_new, r.1, r.2)

end track

/-! ## trackContainer, creation and cloning of tracks -/

/-- State of a `trackContainer`: its track list and the number of calls of its
hook `updateAfterTrackAdd` so far. -/
structure trackContainer where
  m_tracks : trackList
  updateAfterTrackAddCalls : Nat
  deriving DecidableEq, Repr

namespace trackContainer

/-- Modelled from the spec: `trackContainer::addTrack`, which is not among the
sources; "maintain ordered sequence": the track is appended to the list. -/
def addTrack (self : trackContainer) (_track : trackPtr) : trackContainer :=
  { self with m_tracks := self.m_tracks ++ [_track] }

/-- The call of the hook `updateAfterTrackAdd`, counted. -/
def updateAfterTrackAdd (self : trackContainer) : trackContainer :=
  { self with updateAfterTrackAddCalls := self.updateAfterTrackAddCalls + 1 }

end trackContainer

/-- A container with the tracks and the blocks that exist. -/
structure project where
  container : trackContainer
  tracks : trackStore
  tcos : tcoStore

/-- What stops a run outside of defined behaviour: `erase` called with the
`end()` iterator of an empty vector, or a loop of the model out of fuel. -/
inductive fault where
  | eraseAtEnd : fault
  | outOfFuel : fault
  deriving DecidableEq, Repr

namespace track

/-- The members of a track as the initialiser list of `track::track`
(track.cpp 1552-1560) leaves them.  The source does not initialise
`m_mutedBeforeSolo`; it is false here. -/
def initial (_type : TrackTypes) : track :=
  { m_type := _type, m_mutedModel := false, m_soloModel := false,
    m_mutedBeforeSolo := false, m_trackContentObjects := [] }

/-- The constructor `track::track( _type, _tc )` (track.cpp 1552-1563) for a
track allocated at address `_new`: the members are initialised and the track
adds itself to the container. -/
def newTrack (_type : TrackTypes) (w : project) (_new : trackPtr) : project :=
  { w with
    tracks := setAt w.tracks _new (initial _type)
    container := w.container.addTrack _new }

/-- The source's `track::create( _tt, _tc )` (track.cpp 1596-1616); `_new` is
the address of the track the `new` expression allocates.  The result is the
pointer returned (`none` for `NULL`) and the state after the call.

Modelled from the spec: the constructors of `instrumentTrack`, `bbTrack` and
`automationTrack`, which are not among the sources; each builds a track of its
own variant through `track::track` ("factory keyed on `trackType` variant"),
`automationTrack( _tc, TRUE )` the hidden one. -/
def create (_tt : TrackTypes) (w : project) (_new : trackPtr) : Option trackPtr × project :=
  let r : Option trackPtr × project :=
    match _tt with
    | TrackTypes.InstrumentTrack => (some _new, newTrack TrackTypes.InstrumentTrack w _new)
    | TrackTypes.BBTrack => (some _new, newTrack TrackTypes.BBTrack w _new)
    -- case SampleTrack: commented out in the source
    | TrackTypes.AutomationTrack => (some _new, newTrack TrackTypes.AutomationTrack w _new)
    | TrackTypes.HiddenAutomationTrack =>
      (some _new, newTrack TrackTypes.HiddenAutomationTrack w _new)
    | _ => (none, w)
  (r.1, { r.2 with container := r.2.container.updateAfterTrackAdd })

/-- The source's `track::saveSettings` (track.cpp 1665-1688): the attributes
`type` and `muted`, the element with the track-specific settings, then the
state of every block in collection order. -/
def saveSettings (self : track) (st : tcoStore) : trackElement :=
  { typeAttr := self.m_type
    mutedAttr := self.isMuted
    children :=
      domNode.trackSpecific ::
        self.m_trackContentObjects.map (fun it => domNode.tco (st it).saveState) }

/-- Modelled from the spec: `saveState` of a track (of its serialising base,
which is not among the sources): it appends to the parent one element, filled
by `saveSettings`. -/
def saveState (self : track) (st : tcoStore) : trackElement :=
  self.saveSettings st

/-- Clearing loop of `loadSettings` (track.cpp 1715-1719), with fuel; the list
collects the blocks deleted so far.  `delete` runs the destructor of the block
(track.cpp 131-140), which calls `removeTCO( this )` on the track. -/
def clearLoop : Nat → track → List tcoPtr → Except fault (track × List tcoPtr)
  | 0, self, deleted =>
    match self.m_trackContentObjects with
    | [] => Except.ok (self, deleted)
    | _ :: _ => Except.error fault.outOfFuel
  | fuel + 1, self, deleted =>
    match self.m_trackContentObjects with
    | [] => Except.ok (self, deleted)
    | front :: _ =>
      -- delete m_trackContentObjects.front()
      let t1 := self.removeTCO front
      -- m_trackContentObjects.erase( m_trackContentObjects.begin() )
      match t1.m_trackContentObjects with
      | [] => Except.error fault.eraseAtEnd
      | _ :: rest =>
        clearLoop fuel { t1 with m_trackContentObjects := rest } (deleted ++ [front])

/-- Loop of `loadSettings` over the child nodes (track.cpp 1721-1742); `next`
is the address of the next block to allocate.  The track-specific settings are
outside of the model, and the pair `saveJournallingState( FALSE )`,
`restoreJournallingState()` around the commented-out `addTCO` leaves the
journalling flag of the track as it was. -/
def loadSettingsLoop : List domNode → track → tcoStore → tcoPtr → track × tcoStore
  | [], self, st, _ => (self, st)
  | domNode.trackSpecific :: rest, self, st, next => loadSettingsLoop rest self st next
  | domNode.tco e :: rest, self, st, next =>
    -- trackContentObject * tco = createTCO( midiTime( 0 ) )
    let r := self.createTCO st next 0
    -- tco->restoreState( node.toElement() )
    let st2 := setAt r.2 next ((r.2 next).restoreState e)
    loadSettingsLoop rest r.1 st2 (next + 1)
  | domNode.metadata :: rest, self, st, next => loadSettingsLoop rest self st next
  | domNode.noElement :: rest, self, st, next => loadSettingsLoop rest self st next

/-- The source's `track::loadSettings` (track.cpp 1705-1749); the blocks it
creates get the addresses `next`, `next + 1`, and so on.  The warning on a
type mismatch is not modelled. -/
def loadSettings (self : track) (st : tcoStore) (_this : trackElement) (next : tcoPtr) :
    Except fault (track × tcoStore) :=
  let t1 := self.setMuted _this.mutedAttr
  match clearLoop t1.m_trackContentObjects.length t1 [] with
  | Except.error f => Except.error f
  | Except.ok r => Except.ok (loadSettingsLoop _this.children r.1 st next)

/-- Modelled from the spec: `restoreState` of a track (of its serialising
base, which is not among the sources): it hands the element to
`loadSettings`. -/
def restoreState (self : track) (st : tcoStore) (_this : trackElement) (next : tcoPtr) :
    Except fault (track × tcoStore) :=
  self.loadSettings st _this next

/-- The source's `track::create( _this, _tc )` (track.cpp 1626-1637). -/
def createFromElement (_this : trackElement) (w : project) (_new : trackPtr)
    (next : tcoPtr) : Except fault (Option trackPtr × project) :=
  let r := create _this.typeAttr w _new
  match r.1 with
  | some t =>
    match (r.2.tracks t).restoreState r.2.tcos _this next with
    | Except.error f => Except.error f
    | Except.ok x =>
      Except.ok (some t, { r.2 with tracks := setAt r.2.tracks t x.1, tcos := x.2 })
  | none => Except.ok (none, r.2)

/-- The source's `track::clone` (track.cpp 1643-1649) on the track at address
`self`; `_new` and `next` are the addresses for the track and the blocks that
get allocated. -/
def clone (self : trackPtr) (w : project) (_new : trackPtr) (next : tcoPtr) :
    Except fault project :=
  let parent := (w.tracks self).saveState w.tcos
  match createFromElement parent w _new next with
  | Except.error f => Except.error f
  | Except.ok r => Except.ok r.2

end track

/-- The fragments written by blocks among the child nodes, in document
order. -/
def tcoElements : List domNode → List tcoElement
  | [] => []
  | domNode.tco e :: rest => e :: tcoElements rest
  | _ :: rest => tcoElements rest

/-- The fields of a block that a save and restore carries over: start
position, length and mute flag. -/
def tcoSummary (b : trackContentObject) : midiTime × midiTime × Bool :=
  (b.startPosition, b.length, b.m_mutedModel)

/-- The blocks after the two `movePosition` calls of `swapPositionOfTCOs`,
`pa` and `pb` being the blocks at the first and the second index before the
call; see `swapPositionOfTCOs_eval`. -/
def swappedStore (st : tcoStore) (pa pb : tcoPtr) : tcoStore :=
  setAt (setAt st pb ((st pb).movePosition (st pa).startPosition)) pa
    ((setAt st pb ((st pb).movePosition (st pa).startPosition) pa).movePosition
      (st pb).startPosition)

/-! ## Destruction of a track -/

namespace trackContainer

/-- Modelled from the spec: `trackContainer::removeTrack`, which is not among
the sources; "maintain ordered sequence": the track is taken out of the
list. -/
def removeTrack (self : trackContainer) (_track : trackPtr) : trackContainer :=
  { self with m_tracks := self.m_tracks.erase _track }

end trackContainer

namespace track

/-- Loop of the destructor `track::~track` (track.cpp 1580-1583), with fuel;
the list collects the blocks deleted so far.  `delete` runs the destructor of
the block (track.cpp 131-140), which calls `removeTCO( this )` on the track. -/
def destructorLoop : Nat → track → List tcoPtr → Except fault (track × List tcoPtr)
  | 0, self, deleted =>
    match self.m_trackContentObjects with
    | [] => Except.ok (self, deleted)
    | _ :: _ => Except.error fault.outOfFuel
  | fuel + 1, self, deleted =>
    match self.m_trackContentObjects.getLast? with
    | none => Except.ok (self, deleted)
    | some last =>
      -- delete m_trackContentObjects.last()
      destructorLoop fuel (self.removeTCO last) (deleted ++ [last])

/-- The source's `track::~track` (track.cpp 1578-1586) on the track at address
`self`: the loop, with as much fuel as the collection has entries, then
`m_trackContainer->removeTrack( this )`. -/
def destroy (self : trackPtr) (w : project) : Except fault project :=
  match destructorLoop (w.tracks self).m_trackContentObjects.length (w.tracks self) [] with
  | Except.error f => Except.error f
  | Except.ok r =>
    Except.ok
      { w with
        tracks := setAt w.tracks self r.1
        container := w.container.removeTrack self }

end track

/-! ## trackContentWidget: journal of added and removed blocks -/

/-- Action ids of the journal entries of a `trackContentWidget` (enum of
track.h); `other n` stands for every other id. -/
inductive widgetAction where
  | AddTrackContentObject : widgetAction
  | RemoveTrackContentObject : widgetAction
  | other (n : Nat) : widgetAction
  deriving DecidableEq, Repr

/-- The `QMap` a widget entry carries: the value under "id" and the value
under "state" (`none` while the key is absent).  The serialised state is kept
as the fragment itself, the text form written by `toString` and parsed back
being the same document. -/
structure widgetData where
  id : Int
  state : Option tcoElement
  deriving DecidableEq, Repr

/-- A journal entry of a `trackContentWidget`. -/
structure widgetEntry where
  actionID : widgetAction
  data : widgetData
  deriving DecidableEq, Repr

/-- What `trackContentWidget::undoStep` works on: the track of the widget, the
blocks, the journalling objects of the project journal by id, the blocks
scheduled with `deleteLater`, and the journalling flag of the widget with its
stack. -/
structure trackContentWidget where
  getTrack : track
  tcos : tcoStore
  getJournallingObject : Int → Option tcoPtr
  deleteLater : List tcoPtr
  m_journalling : Bool
  m_journallingStateStack : List Bool

namespace trackContentWidget

/-- Modelled from the spec: `saveJournallingState` of the journalling base,
as for blocks. -/
def saveJournallingState (self : trackContentWidget) (_new_state : Bool) :
    trackContentWidget :=
  { self with
    m_journallingStateStack := self.m_journalling :: self.m_journallingStateStack
    m_journalling := _new_state }

/-- Modelled from the spec: `restoreJournallingState` of the journalling base,
as for blocks. -/
def restoreJournallingState (self : trackContentWidget) : trackContentWidget :=
  match self.m_journallingStateStack with
  | [] => self
  | b :: rest => { self with m_journalling := b, m_journallingStateStack := rest }

/-- The source's `trackContentWidget::undoStep` (track.cpp 1219-1252); `_new`
is the address of the block `createTCO` allocates.  The result is the widget
and the entry after the call; `none` when the id of the entry names no block
(the source then calls through a null pointer).

Modelled from the spec: the lookup in the project journal, `saveState` and
`restoreState` of a block and `createTCO`, which are not among the sources; a
"state" that is absent leaves the created block as it is. -/
def undoStep (self : trackContentWidget) (_je : widgetEntry) (_new : tcoPtr) :
    Option (trackContentWidget × widgetEntry) :=
  let s := self.saveJournallingState false
  let r : Option (trackContentWidget × widgetEntry) :=
    match _je.actionID with
    | widgetAction.AddTrackContentObject =>
      match s.getJournallingObject _je.data.id with
      | none => none
      | some tco =>
        -- tco->saveState( mmp, mmp.content() ); map["state"] = mmp.toString()
        let map : widgetData := { _je.data with state := some (s.tcos tco).saveState }
        -- _je.data() = map; tco->deleteLater()
        some ({ s with deleteLater := s.deleteLater ++ [tco] }, { _je with data := map })
    | widgetAction.RemoveTrackContentObject =>
      -- trackContentObject * tco = getTrack()->createTCO( midiTime( 0 ) )
      let c := s.getTrack.createTCO s.tcos _new 0
      -- tco->restoreState( ... _je.data().toMap()["state"] ... )
      let st2 : tcoStore :=
        match _je.data.state with
        | some e => setAt c.2 _new ((c.2 _new).restoreState e)
        | none => c.2
      some ({ s with getTrack := c.1, tcos := st2 }, _je)
    | widgetAction.other _ => some (s, _je)
  match r with
  | none => none
  | some x => some (x.1.restoreJournallingState, x.2)

/-- The exchange of the two action ids in `redoStep` (track.cpp 1267-1270 and
1272-1275). -/
def flipAction (a : widgetAction) : widgetAction :=
  if a = widgetAction.AddTrackContentObject then widgetAction.RemoveTrackContentObject
  else widgetAction.AddTrackContentObject

/-- The source's `trackContentWidget::redoStep` (track.cpp 1261-1278). -/
def redoStep (self : trackContentWidget) (_je : widgetEntry) (_new : tcoPtr) :
    Option (trackContentWidget × widgetEntry) :=
  match _je.actionID with
  | widgetAction.other _ => some (self, _je)
  | _ =>
    let je1 : widgetEntry := { _je with actionID := flipAction _je.actionID }
    match self.undoStep je1 _new with
    | none => none
    | some x => some (x.1, { x.2 with actionID := flipAction x.2.actionID })

end trackContentWidget

/-! ## trackContentObjectView: mouse press and release -/

/-- The source's `RESIZE_GRIP_WIDTH` (track.cpp 76). -/
def RESIZE_GRIP_WIDTH : Int := 4

/-- The actions of a `trackContentObjectView` that track.cpp assigns to and
compares with `m_action` (enum of track.h). -/
inductive viewAction where
  | NoAction : viewAction
  | Move : viewAction
  | MoveSelection : viewAction
  | Resize : viewAction
  deriving DecidableEq, Repr

/-- Mouse buttons of an event. -/
inductive mouseButton where
  | NoButton : mouseButton
  | LeftButton : mouseButton
  | MidButton : mouseButton
  | RightButton : mouseButton
  deriving DecidableEq, Repr

/-- What the mouse handlers read from the event and from the widgets around
the view.  `dragTime` is the time `mouseMoveEvent` computes from the pixel
position (a floating-point computation in the source); it is an input here. -/
structure mouseContext where
  button : mouseButton
  x : Int
  isCtrlPressed : Bool
  isShiftPressed : Bool
  allowRubberband : Bool
  rubberBandActive : Bool
  fixedTCOs : Bool
  width : Int
  dragTime : midiTime
  deriving DecidableEq, Repr

/-- State of a `trackContentObjectView` with its block `m_tco`; `removed`
tells that `remove()` has closed the view and scheduled the block with
`deleteLater`. -/
structure trackContentObjectView where
  m_tco : trackContentObject
  m_action : viewAction
  m_autoResize : Bool
  m_initialMouseX : Int
  m_oldTime : midiTime
  isSelected : Bool
  removed : Bool
  deriving DecidableEq, Repr

namespace trackContentObject

/-- The source's `trackContentObject::toggleMute` (track.cpp 279-283). -/
def toggleMute (self : trackContentObject) : trackContentObject :=
  { self with
    m_mutedModel := !self.m_mutedModel
    effects := self.effects ++ [tcoEffect.dataChanged] }

end trackContentObject

namespace trackContentObjectView

/-- The action id of the entry `mouseReleaseEvent` records for `m_action`. -/
def journalAction : viewAction → t_action_id
  | viewAction.Move => t_action_id.Move
  | viewAction.Resize => t_action_id.Resize
  | viewAction.NoAction => t_action_id.other 0
  | viewAction.MoveSelection => t_action_id.other 1

/-- The source's `trackContentObjectView::mouseMoveEvent` (track.cpp 644-754),
as far as it acts on the block of the view: in move mode the block is moved, in
resize mode it is resized, to the time computed from the pixel position; in
move-selection mode the selected blocks are moved, this one if it is selected.
Cursor, hint and text float are not modelled. -/
def mouseMoveEvent (self : trackContentObjectView) (c : mouseContext) :
    trackContentObjectView :=
  match self.m_action with
  | viewAction.Move => { self with m_tco := self.m_tco.movePosition c.dragTime }
  | viewAction.MoveSelection =>
    if self.isSelected then { self with m_tco := self.m_tco.movePosition c.dragTime }
    else self
  | viewAction.Resize => { self with m_tco := self.m_tco.changeLength c.dragTime }
  | viewAction.NoAction => self

/-- The source's `trackContentObjectView::mousePressEvent` (track.cpp 532-626).
`selectableObject::mousePressEvent` and the start of a drag do not act on the
state modelled. -/
def mousePressEvent (self : trackContentObjectView) (c : mouseContext) :
    trackContentObjectView :=
  if c.allowRubberband = true ∧ c.button = mouseButton.LeftButton then
    -- if rubberband is active, we can be selected
    if !c.rubberBandActive then
      if c.isCtrlPressed = true then
        { self with isSelected := !self.isSelected }
      else if self.isSelected = true then
        { self with m_action := viewAction.MoveSelection, m_initialMouseX := c.x }
      else
        self
    else
      self
  else if c.isShiftPressed = true then
    self
  else if c.button = mouseButton.LeftButton ∧ c.isCtrlPressed = true then
    self
  else if c.button = mouseButton.LeftButton ∧ c.fixedTCOs = false then
    -- move or resize
    let s : trackContentObjectView :=
      { self with m_tco := self.m_tco.setJournalling false, m_initialMouseX := c.x }
    let s : trackContentObjectView :=
      if c.x < c.width - RESIZE_GRIP_WIDTH then
        { s with m_action := viewAction.Move, m_oldTime := s.m_tco.startPosition }
      else if s.m_autoResize = false then
        { s with m_action := viewAction.Resize, m_oldTime := s.m_tco.length }
      else
        s
    s.mouseMoveEvent c
  else if c.button = mouseButton.MidButton then
    if c.isCtrlPressed then
      { self with m_tco := self.m_tco.toggleMute }
    else if c.fixedTCOs = false then
      { self with removed := true }
    else
      self
  else
    self

/-- The source's `trackContentObjectView::mouseReleaseEvent`
(track.cpp 765-780). -/
def mouseReleaseEvent (self : trackContentObjectView) : trackContentObjectView :=
  let s : trackContentObjectView :=
    if self.m_action = viewAction.Move ∨ self.m_action = viewAction.Resize then
      let b := self.m_tco.setJournalling true
      let cur : midiTime :=
        if self.m_action = viewAction.Move then b.startPosition else b.length
      { self with
        m_tco := b.addJournalEntry ⟨journalAction self.m_action, self.m_oldTime - cur⟩ }
    else
      self
  { s with m_action := viewAction.NoAction }

end trackContentObjectView

/-- The quantity `M` of the length contract, in its words: "the maximum
endPosition over the track's blocks and M = 0 for a track with no blocks". -/
def maxEndPosition (st : tcoStore) (v : tcoVector) : Int :=
  ((v.map (fun b => (st b).endPosition)).max?).getD 0

/-- Closed-interval overlap of block `b` with the range `[_start, _end]`. -/
def overlaps (st : tcoStore) (_start _end : midiTime) (b : tcoPtr) : Bool :=
  decide ((st b).startPosition ≤ _end) && decide ((st b).endPosition ≥ _start)

/-- A vector of blocks is non-decreasing by start position. -/
def sortedByStart (st : tcoStore) (v : tcoVector) : Prop :=
  v.Pairwise (fun a b => (st a).startPosition ≤ (st b).startPosition)

/-- The elements of `v` whose start position is `s`, in the order of `v`. -/
def withStart (st : tcoStore) (s : midiTime) (v : tcoVector) : tcoVector :=
  v.filter (fun b => decide ((st b).startPosition = s))

/-! ## Sample data for the closed instances -/

/-- A block with start `s` and length `l`, unmuted, journalling enabled, with
an empty journal. -/
def blockAt (s l : midiTime) : trackContentObject :=
  { m_startPosition := s, m_length := l, m_mutedModel := false, m_journalling := true,
    m_journallingStateStack := [], undoStack := [], redoStack := [], effects := [] }

/-- Four blocks: 0 covers ticks 0 to 10, 1 covers 0 to 20, 2 covers 30 to 35,
3 covers 12 to 13; every other address holds a block covering 100 to 101. -/
def sampleBlocks : tcoStore := fun p =>
  match p with
  | 0 => blockAt 0 10
  | 1 => blockAt 0 20
  | 2 => blockAt 30 5
  | 3 => blockAt 12 1
  | _ => blockAt 100 1

/-- A track whose collection holds the blocks 2, 0, 1, 3 in that order. -/
def sampleTrack : track :=
  { m_type := TrackTypes.InstrumentTrack,
    m_mutedModel := false, m_soloModel := false, m_mutedBeforeSolo := false,
    m_trackContentObjects := [2, 0, 1, 3] }

/-- A project whose container holds the tracks 0 and 1: track 0 is the sample
track, track 1 is a muted track of type `SampleTrack` with the blocks 0 and 3;
the blocks are the sample blocks. -/
def sampleProject : project :=
  { container := { m_tracks := [0, 1], updateAfterTrackAddCalls := 0 }
    tracks := fun p =>
      match p with
      | 0 => sampleTrack
      | _ =>
        { m_type := TrackTypes.SampleTrack, m_mutedModel := true, m_soloModel := false,
          m_mutedBeforeSolo := false, m_trackContentObjects := [0, 3] }
    tcos := sampleBlocks }

/-- A content widget on the sample track and the sample blocks; the journal id
42 names block 1. -/
def sampleWidget : trackContentWidget :=
  { getTrack := sampleTrack, tcos := sampleBlocks,
    getJournallingObject := fun i => if i = 42 then some 1 else none,
    deleteLater := [], m_journalling := true, m_journallingStateStack := [] }

/-- A view of the sample block with automatic resizing switched on, idle. -/
def autoResizeView : trackContentObjectView :=
  { m_tco := trackContentObject.initial, m_action := viewAction.NoAction,
    m_autoResize := true, m_initialMouseX := 0, m_oldTime := 0, isSelected := false,
    removed := false }

/-- A plain left click at x = 98 on a view 100 pixels wide, inside the resize
grip, with movable blocks and no rubber band. -/
def clickInGrip : mouseContext :=
  { button := mouseButton.LeftButton, x := 98, isCtrlPressed := false,
    isShiftPressed := false, allowRubberband := false, rubberBandActive := false,
    fixedTCOs := false, width := 100, dragTime := 0 }

/-- A track without blocks, with the given mute flag and snapshot flag, and
its solo flag cleared. -/
def trackWith (muted mutedBeforeSolo : Bool) : track :=
  { m_type := TrackTypes.InstrumentTrack,
    m_mutedModel := muted, m_soloModel := false, m_mutedBeforeSolo := mutedBeforeSolo,
    m_trackContentObjects := [] }

/-- Three tracks, none soloed: 0 is unmuted, 1 is muted, 2 is unmuted; the
snapshot flags differ from the mute flags. -/
def sampleTracks : trackStore := fun p =>
  match p with
  | 0 => trackWith false true
  | 1 => trackWith true false
  | 2 => trackWith false true
  | _ => trackWith false false

/-! ## Undo and redo of Move and Resize -/

namespace trackContentObject

/-- A block used by the closed instances below: start 3, length 4, journalling
enabled, empty journal. -/
def sample : trackContentObject :=
  { m_startPosition := 3, m_length := 4, m_mutedModel := false, m_journalling := true,
    m_journallingStateStack := [], undoStack := [], redoStack := [], effects := [] }

theorem lastRecorded_movePosition (b : trackContentObject) (p : midiTime)
    (hj : b.m_journalling = true) (hp : p ≠ b.m_startPosition) :
    (b.movePosition p).lastRecorded = some ⟨t_action_id.Move, b.m_startPosition - p⟩ := by
  have hp2 : ¬ b.m_startPosition = p := fun h => hp h.symm
  simp [movePosition, addJournalEntry, lastRecorded, hj, hp2]

theorem lastRecorded_changeLength (b : trackContentObject) (n : midiTime)
    (hj : b.m_journalling = true) (hn : n ≠ b.m_length) :
    (b.changeLength n).lastRecorded = some ⟨t_action_id.Resize, b.m_length - n⟩ := by
  have hn2 : ¬ b.m_length = n := fun h => hn h.symm
  simp [changeLength, addJournalEntry, lastRecorded, hj, hn2]

@[simp]
theorem movePosition_start (b : trackContentObject) (p : midiTime) :
    (b.movePosition p).m_startPosition = p := by
  unfold movePosition addJournalEntry
  by_cases h : b.m_startPosition = p <;> by_cases hj : b.m_journalling = true <;> simp [h, hj]

@[simp]
theorem movePosition_length (b : trackContentObject) (p : midiTime) :
    (b.movePosition p).m_length = b.m_length := by
  unfold movePosition addJournalEntry
  by_cases h : b.m_startPosition = p <;> by_cases hj : b.m_journalling = true <;> simp [h, hj]

@[simp]
theorem changeLength_length (b : trackContentObject) (n : midiTime) :
    (b.changeLength n).m_length = n := by
  unfold changeLength addJournalEntry
  by_cases h : b.m_length = n <;> by_cases hj : b.m_journalling = true <;> simp [h, hj]

@[simp]
theorem changeLength_start (b : trackContentObject) (n : midiTime) :
    (b.changeLength n).m_startPosition = b.m_startPosition := by
  unfold changeLength addJournalEntry
  by_cases h : b.m_length = n <;> by_cases hj : b.m_journalling = true <;> simp [h, hj]

@[simp]
theorem restoreJournallingState_start (b : trackContentObject) :
    b.restoreJournallingState.m_startPosition = b.m_startPosition := by
  unfold restoreJournallingState
  cases b.m_journallingStateStack <;> rfl

@[simp]
theorem restoreJournallingState_length (b : trackContentObject) :
    b.restoreJournallingState.m_length = b.m_length := by
  unfold restoreJournallingState
  cases b.m_journallingStateStack <;> rfl

theorem undoStep_move_start (b : trackContentObject) (d : Int) :
    (b.undoStep ⟨t_action_id.Move, d⟩).m_startPosition = b.m_startPosition + d := by
  simp [undoStep, saveJournallingState, startPosition]

theorem undoStep_move_length (b : trackContentObject) (d : Int) :
    (b.undoStep ⟨t_action_id.Move, d⟩).m_length = b.m_length := by
  simp [undoStep, saveJournallingState, startPosition]

theorem undoStep_resize_length (b : trackContentObject) (d : Int) :
    (b.undoStep ⟨t_action_id.Resize, d⟩).m_length = b.m_length + d := by
  simp [undoStep, saveJournallingState, length]

theorem undoStep_resize_start (b : trackContentObject) (d : Int) :
    (b.undoStep ⟨t_action_id.Resize, d⟩).m_startPosition = b.m_startPosition := by
  simp [undoStep, saveJournallingState, length]

/-- C1: on a block with journalling enabled, `movePosition(p)` with `p` different
from the start records a journal entry, and `undoStep` on that entry puts the
start position back to its former value and leaves the length as it was;
`changeLength(n)` with `n` different from the length records an entry, and
`undoStep` on it puts the length back and leaves the start position as it
was. -/
theorem edit_then_undo_restores (b : trackContentObject) (p n : midiTime)
    (hj : b.isJournalling = true) (hp : p ≠ b.startPosition) (hn : n ≠ b.length) :
    (∃ e, (b.movePosition p).lastRecorded = some e ∧
        ((b.movePosition p).undoStep e).startPosition = b.startPosition ∧
        ((b.movePosition p).undoStep e).length = b.length) ∧
    (∃ e, (b.changeLength n).lastRecorded = some e ∧
        ((b.changeLength n).undoStep e).length = b.length ∧
        ((b.changeLength n).undoStep e).startPosition = b.startPosition) := by
  refine ⟨⟨_, lastRecorded_movePosition b p hj hp, ?_, ?_⟩,
    ⟨_, lastRecorded_changeLength b n hj hn, ?_, ?_⟩⟩
  · show ((b.movePosition p).undoStep _).m_startPosition = b.m_startPosition
    rw [undoStep_move_start, movePosition_start]; ring
  · show ((b.movePosition p).undoStep _).m_length = b.m_length
    rw [undoStep_move_length, movePosition_length]
  · show ((b.changeLength n).undoStep _).m_length = b.m_length
    rw [undoStep_resize_length, changeLength_length]; ring
  · show ((b.changeLength n).undoStep _).m_startPosition = b.m_startPosition
    rw [undoStep_resize_start, changeLength_start]

/-- Instance of C1: the sample block (start 3, length 4) moved to 10 and
resized to 0. -/
theorem edit_then_undo_restores_witness :
    sample.isJournalling = true ∧ (10 : midiTime) ≠ sample.startPosition ∧
    (0 : midiTime) ≠ sample.length ∧
    ((∃ e, (sample.movePosition 10).lastRecorded = some e ∧
        ((sample.movePosition 10).undoStep e).startPosition = sample.startPosition ∧
        ((sample.movePosition 10).undoStep e).length = sample.length) ∧
    (∃ e, (sample.changeLength 0).lastRecorded = some e ∧
        ((sample.changeLength 0).undoStep e).length = sample.length ∧
        ((sample.changeLength 0).undoStep e).startPosition = sample.startPosition)) :=
  ⟨rfl, by decide, by decide,
    edit_then_undo_restores sample 10 0 rfl (by decide) (by decide)⟩

/-- C2: for the entry `e` recorded by a move from `v` to `p` (by a resize from
`l` to `n`), once `undoStep(e)` has put `v` (`l`) back, `redoStep(e)` sets the
start position to `p` (the length to `n`) and leaves the other field alone; and
on every block and every entry, `redoStep` is `undoStep` on the entry of the
same kind with the negated delta. -/
theorem undo_then_redo_restores (b : trackContentObject) (p n : midiTime)
    (hj : b.isJournalling = true) (hp : p ≠ b.startPosition) (hn : n ≠ b.length) :
    (∃ e, (b.movePosition p).lastRecorded = some e ∧
        ((b.movePosition p).undoStep e).startPosition = b.startPosition ∧
        (((b.movePosition p).undoStep e).redoStep e).startPosition = p ∧
        (((b.movePosition p).undoStep e).redoStep e).length = b.length) ∧
    (∃ e, (b.changeLength n).lastRecorded = some e ∧
        ((b.changeLength n).undoStep e).length = b.length ∧
        (((b.changeLength n).undoStep e).redoStep e).length = n ∧
        (((b.changeLength n).undoStep e).redoStep e).startPosition = b.startPosition) ∧
    (∀ (x : trackContentObject) (e : journalEntry),
        x.redoStep e = x.undoStep ⟨e.actionID, -e.data⟩) := by
  refine ⟨⟨_, lastRecorded_movePosition b p hj hp, ?_, ?_, ?_⟩,
    ⟨_, lastRecorded_changeLength b n hj hn, ?_, ?_, ?_⟩, fun _ _ => rfl⟩
  · show ((b.movePosition p).undoStep _).m_startPosition = b.m_startPosition
    rw [undoStep_move_start, movePosition_start]; ring
  · show (((b.movePosition p).undoStep _).undoStep _).m_startPosition = p
    rw [undoStep_move_start, undoStep_move_start, movePosition_start]; ring
  · show (((b.movePosition p).undoStep _).undoStep _).m_length = b.m_length
    rw [undoStep_move_length, undoStep_move_length, movePosition_length]
  · show ((b.changeLength n).undoStep _).m_length = b.m_length
    rw [undoStep_resize_length, changeLength_length]; ring
  · show (((b.changeLength n).undoStep _).undoStep _).m_length = n
    rw [undoStep_resize_length, undoStep_resize_length, changeLength_length]; ring
  · show (((b.changeLength n).undoStep _).undoStep _).m_startPosition = b.m_startPosition
    rw [undoStep_resize_start, undoStep_resize_start, changeLength_start]

/-- Instance of C2: the sample block (start 3, length 4) moved to 10 and
resized to 0, undone and redone. -/
theorem undo_then_redo_restores_witness :
    sample.isJournalling = true ∧ (10 : midiTime) ≠ sample.startPosition ∧
    (0 : midiTime) ≠ sample.length ∧
    (((sample.movePosition 10).undoStep ⟨t_action_id.Move, -7⟩).redoStep
        ⟨t_action_id.Move, -7⟩).startPosition = 10 ∧
    (∀ (x : trackContentObject) (e : journalEntry),
        x.redoStep e = x.undoStep ⟨e.actionID, -e.data⟩) :=
  ⟨rfl, by decide, by decide, by decide,
    (undo_then_redo_restores sample 10 0 rfl (by decide) (by decide)).2.2⟩

end trackContentObject

/-! ## getTCOsInRange -/

namespace track

theorem insertInOrder_perm (st : tcoStore) (tco : tcoPtr) (s : Int) (v : tcoVector) :
    (insertInOrder st tco s v).Perm (tco :: v) := by
  induction v with
  | nil => exact List.Perm.refl _
  | cons it rest ih =>
    unfold insertInOrder
    split
    · exact List.Perm.refl _
    · exact (List.Perm.cons it ih).trans (List.Perm.swap tco it rest)

theorem mem_insertInOrder (st : tcoStore) (tco : tcoPtr) (s : Int) (v : tcoVector)
    (x : tcoPtr) : x ∈ insertInOrder st tco s v ↔ x = tco ∨ x ∈ v := by
  rw [(insertInOrder_perm st tco s v).mem_iff, List.mem_cons]

theorem getTCOsInRangeLoop_perm (st : tcoStore) (_start _end : midiTime)
    (blocks v : tcoVector) :
    (getTCOsInRangeLoop st _start _end blocks v).Perm
      (blocks.filter (overlaps st _start _end) ++ v) := by
  induction blocks generalizing v with
  | nil => exact List.Perm.refl _
  | cons tco rest ih =>
    unfold getTCOsInRangeLoop
    by_cases h : (st tco).startPosition ≤ _end ∧ (st tco).endPosition ≥ _start
    · have hov : overlaps st _start _end tco = true := by
        simp only [overlaps, Bool.and_eq_true, decide_eq_true_eq]; exact h
      simp only [h, and_self, if_true, List.filter_cons, hov]
      refine (ih _).trans ?_
      refine (List.Perm.append_left _ (insertInOrder_perm st tco _ v)).trans ?_
      exact List.perm_middle
    · have hov : overlaps st _start _end tco = false := by
        rw [← Bool.not_eq_true]
        simp only [overlaps, Bool.and_eq_true, decide_eq_true_eq]; exact h
      simp only [h, if_false, List.filter_cons, hov]
      exact ih v

theorem insertInOrder_sorted (st : tcoStore) (tco : tcoPtr) (v : tcoVector)
    (hv : sortedByStart st v) :
    sortedByStart st (insertInOrder st tco (st tco).startPosition v) := by
  induction v with
  | nil => simp [insertInOrder, sortedByStart]
  | cons it rest ih =>
    have hv2 := List.pairwise_cons.mp hv
    unfold insertInOrder
    split
    · rename_i hge
      refine List.pairwise_cons.mpr ⟨?_, hv⟩
      intro x hx
      rcases List.mem_cons.mp hx with rfl | hx
      · exact hge
      · exact le_trans hge (hv2.1 x hx)
    · rename_i hlt
      refine List.pairwise_cons.mpr ⟨?_, ih hv2.2⟩
      intro x hx
      rcases (mem_insertInOrder st tco _ rest x).mp hx with rfl | hx
      · exact le_of_lt (not_le.mp hlt)
      · exact hv2.1 x hx

theorem getTCOsInRangeLoop_sorted (st : tcoStore) (_start _end : midiTime)
    (blocks v : tcoVector) (hv : sortedByStart st v) :
    sortedByStart st (getTCOsInRangeLoop st _start _end blocks v) := by
  induction blocks generalizing v with
  | nil => exact hv
  | cons tco rest ih =>
    unfold getTCOsInRangeLoop
    by_cases h : (st tco).startPosition ≤ _end ∧ (st tco).endPosition ≥ _start
    · simp only [h, and_self, if_true]
      exact ih _ (insertInOrder_sorted st tco v hv)
    · simp only [h, if_false]
      exact ih v hv

theorem withStart_insertInOrder (st : tcoStore) (tco : tcoPtr) (s : midiTime)
    (v : tcoVector) :
    withStart st s (insertInOrder st tco (st tco).startPosition v) =
      if (st tco).startPosition = s then tco :: withStart st s v else withStart st s v := by
  induction v with
  | nil =>
    by_cases h : (st tco).startPosition = s <;> simp [insertInOrder, withStart, h]
  | cons it rest ih =>
    unfold insertInOrder
    split
    · by_cases h : (st tco).startPosition = s <;> simp [withStart, List.filter_cons, h]
    · rename_i hlt
      have hlt2 : (st it).startPosition < (st tco).startPosition := not_le.mp hlt
      unfold withStart at ih ⊢
      rw [List.filter_cons, ih]
      by_cases h : (st tco).startPosition = s
      · have hne : ¬ (st it).startPosition = s := by
          intro h2; rw [h2, h] at hlt2; exact lt_irrefl _ hlt2
        simp [List.filter_cons, h, hne]
      · by_cases h2 : (st it).startPosition = s <;> simp [List.filter_cons, h, h2]

theorem withStart_getTCOsInRangeLoop (st : tcoStore) (_start _end s : midiTime)
    (blocks v : tcoVector) :
    withStart st s (getTCOsInRangeLoop st _start _end blocks v) =
      (withStart st s (blocks.filter (overlaps st _start _end))).reverse ++
        withStart st s v := by
  induction blocks generalizing v with
  | nil => simp [getTCOsInRangeLoop, withStart]
  | cons tco rest ih =>
    unfold getTCOsInRangeLoop
    by_cases h : (st tco).startPosition ≤ _end ∧ (st tco).endPosition ≥ _start
    · have hov : overlaps st _start _end tco = true := by
        simp only [overlaps, Bool.and_eq_true, decide_eq_true_eq]; exact h
      simp only [h, and_self, if_true, List.filter_cons, hov]
      rw [ih, withStart_insertInOrder]
      by_cases h2 : (st tco).startPosition = s
      · simp [withStart, List.filter_cons, h2]
      · simp [withStart, List.filter_cons, h2]
    · have hov : overlaps st _start _end tco = false := by
        rw [← Bool.not_eq_true]
        simp only [overlaps, Bool.and_eq_true, decide_eq_true_eq]; exact h
      simp only [h, if_false, List.filter_cons, hov]
      exact ih v

end track

namespace track

/-- C3: called with an empty output list, `getTCOsInRange` returns a
rearrangement of the blocks of the collection that overlap the closed range
`[_start, _end]` (start `<= _end` and end `>= _start`): a block is returned if
and only if it is in the collection and overlaps, it is returned as many times
as it occurs in the collection (once for a collection without duplicates), and
the track is the same after the call. -/
theorem getTCOsInRange_exact (t : track) (st : tcoStore) (_start _end : midiTime) :
    (t.getTCOsInRange st [] _start _end).2.Perm
      (t.m_trackContentObjects.filter (overlaps st _start _end)) ∧
    (∀ b, b ∈ (t.getTCOsInRange st [] _start _end).2 ↔
      (b ∈ t.m_trackContentObjects ∧
        (st b).startPosition ≤ _end ∧ (st b).endPosition ≥ _start)) ∧
    (∀ b, (t.getTCOsInRange st [] _start _end).2.count b =
      if (st b).startPosition ≤ _end ∧ (st b).endPosition ≥ _start then
        t.m_trackContentObjects.count b
      else 0) ∧
    (t.getTCOsInRange st [] _start _end).1 = t := by
  have hp : (t.getTCOsInRange st [] _start _end).2.Perm
      (t.m_trackContentObjects.filter (overlaps st _start _end)) := by
    have h := getTCOsInRangeLoop_perm st _start _end t.m_trackContentObjects []
    rw [List.append_nil] at h
    exact h
  refine ⟨hp, ?_, ?_, rfl⟩
  · intro b
    rw [hp.mem_iff, List.mem_filter]
    simp only [overlaps, Bool.and_eq_true, decide_eq_true_eq]
  · intro b
    rw [hp.count_eq]
    by_cases h : (st b).startPosition ≤ _end ∧ (st b).endPosition ≥ _start
    · have hov : overlaps st _start _end b = true := by
        simp only [overlaps, Bool.and_eq_true, decide_eq_true_eq]; exact h
      rw [if_pos h, List.count_filter hov]
    · rw [if_neg h, List.count_eq_zero]
      intro hmem
      apply h
      have := (List.mem_filter.mp hmem).2
      simpa only [overlaps, Bool.and_eq_true, decide_eq_true_eq] using this

/-- C4: when the output list passed in is non-decreasing by start position
(the empty list is), the list `getTCOsInRange` produces is non-decreasing by
start position, whatever the order of the blocks in the collection. -/
theorem getTCOsInRange_sorted (t : track) (st : tcoStore) (_tco_v : tcoVector)
    (_start _end : midiTime) (hv : sortedByStart st _tco_v) :
    sortedByStart st (t.getTCOsInRange st _tco_v _start _end).2 :=
  getTCOsInRangeLoop_sorted st _start _end t.m_trackContentObjects _tco_v hv

/-- Instance of C4: the sample track, whose collection is not in time order,
queried on `[0, 50]` with the sorted output list `[3, 2]`. -/
theorem getTCOsInRange_sorted_witness :
    sortedByStart sampleBlocks [3, 2] ∧
    (sampleTrack.getTCOsInRange sampleBlocks [3, 2] 0 50).2 = [1, 0, 3, 3, 2, 2] ∧
    sortedByStart sampleBlocks (sampleTrack.getTCOsInRange sampleBlocks [3, 2] 0 50).2 :=
  ⟨by unfold sortedByStart; decide, by decide,
    getTCOsInRange_sorted sampleTrack sampleBlocks [3, 2] 0 50
      (by unfold sortedByStart; decide)⟩

/-- C5, as stated, fails: in the sample track block 0 comes before block 1 in
the collection, both start at tick 0 and both are returned for `[0, 50]`, but
block 1 comes first in the result. -/
theorem getTCOsInRange_not_stable :
    (sampleBlocks 0).startPosition = (sampleBlocks 1).startPosition ∧
    List.Sublist [0, 1] sampleTrack.m_trackContentObjects ∧
    (sampleTrack.getTCOsInRange sampleBlocks [] 0 50).2 = [1, 0, 3, 2] ∧
    ¬ List.Sublist [0, 1] (sampleTrack.getTCOsInRange sampleBlocks [] 0 50).2 := by
  decide

/-- C5, amended: among the blocks returned by `getTCOsInRange` (called with an
empty output list) that have the same start position `s`, the order is the
reverse of their order in the collection. -/
theorem getTCOsInRange_equal_start_reversed (t : track) (st : tcoStore)
    (_start _end s : midiTime) :
    withStart st s (t.getTCOsInRange st [] _start _end).2 =
      (withStart st s
        (t.m_trackContentObjects.filter (overlaps st _start _end))).reverse := by
  have h := withStart_getTCOsInRangeLoop st _start _end s t.m_trackContentObjects []
  simpa [withStart, getTCOsInRange] using h

/-- C6, as stated, fails: queried on `[5, 15]`, the sample track returns block
0, which starts at tick 0, before `_start`, and block 1, which starts before
`_start` and ends at tick 20, after `_end`. -/
theorem getTCOsInRange_returns_partly_outside :
    (sampleTrack.getTCOsInRange sampleBlocks [] 5 15).2 = [1, 0, 3] ∧
    (sampleBlocks 0).startPosition < 5 ∧
    (sampleBlocks 1).startPosition < 5 ∧ (sampleBlocks 1).endPosition > 15 := by
  decide

/-- C6, amended: `getTCOsInRange` returns only blocks that overlap the given
period, the boundaries included: called with an empty output list, every block
it returns is a block of the collection with start position no later than
`_end` and end position no earlier than `_start`; called with any output
list, every block of the result that was not in the list passed in is such a
block. -/
theorem getTCOsInRange_returns_overlapping (t : track) (st : tcoStore)
    (_tco_v : tcoVector) (_start _end : midiTime) :
    (∀ b, b ∈ (t.getTCOsInRange st [] _start _end).2 →
      b ∈ t.m_trackContentObjects ∧
        (st b).startPosition ≤ _end ∧ (st b).endPosition ≥ _start) ∧
    (∀ b, b ∈ (t.getTCOsInRange st _tco_v _start _end).2 → b ∉ _tco_v →
      b ∈ t.m_trackContentObjects ∧
        (st b).startPosition ≤ _end ∧ (st b).endPosition ≥ _start) := by
  have key : ∀ v b, b ∈ (t.getTCOsInRange st v _start _end).2 → b ∉ v →
      b ∈ t.m_trackContentObjects ∧
        (st b).startPosition ≤ _end ∧ (st b).endPosition ≥ _start := by
    intro v b hb hv
    have hp := getTCOsInRangeLoop_perm st _start _end t.m_trackContentObjects v
    have hm : b ∈ t.m_trackContentObjects.filter (overlaps st _start _end) ++ v :=
      hp.mem_iff.mp hb
    rcases List.mem_append.mp hm with h | h
    · have h2 := List.mem_filter.mp h
      refine ⟨h2.1, ?_⟩
      simpa only [overlaps, Bool.and_eq_true, decide_eq_true_eq] using h2.2
    · exact absurd h hv
  exact ⟨fun b hb => key [] b hb (List.not_mem_nil b), key _tco_v⟩

end track

/-! ## toggleSolo -/

namespace track

theorem setAt_self {α : Type} (st : Nat → α) (p : Nat) : setAt st p (st p) = st := by
  funext q
  unfold setAt
  split
  · rename_i h; rw [h]
  · rfl

theorem setAt_setAt {α : Type} (st : Nat → α) (p : Nat) (x y : α) :
    setAt (setAt st p x) p y = setAt st p y := by
  funext q
  unfold setAt
  split <;> rfl

@[simp]
theorem setAt_same {α : Type} (st : Nat → α) (p : Nat) (x : α) :
    setAt st p x p = x := by
  simp [setAt]

theorem setAt_other {α : Type} (st : Nat → α) (p q : Nat) (x : α) (h : q ≠ p) :
    setAt st p x q = st q := by
  simp [setAt, h]

theorem toggleSoloStep_eq (this : trackPtr) (solo solo_before : Bool) (st : trackStore)
    (it : trackPtr) :
    toggleSoloStep this solo solo_before st it =
      setAt st it (toggleSoloOn (decide (it = this)) solo solo_before (st it)) := by
  unfold toggleSoloStep toggleSoloOn
  cases solo <;> cases solo_before <;> by_cases h : it = this <;>
    simp [h, setAt_setAt, setAt_self, setMuted, isMuted]

theorem toggleSolo_foldl (this : trackPtr) (solo solo_before : Bool) (tl : trackList)
    (st : trackStore) (u : trackPtr) :
    (tl.foldl (toggleSoloStep this solo solo_before) st) u =
      (toggleSoloOn (decide (u = this)) solo solo_before)^[tl.count u] (st u) := by
  induction tl generalizing st with
  | nil => rfl
  | cons it rest ih =>
    rw [List.foldl_cons, ih, toggleSoloStep_eq]
    by_cases h : u = it
    · subst h
      rw [List.count_cons_self, Function.iterate_succ_apply, setAt_same]
    · rw [List.count_cons_of_ne h, setAt_other _ _ _ _ h]

theorem toggleSolo_apply_of_not_mem (tl : trackList) (st : trackStore) (this u : trackPtr)
    (hu : u ∉ tl) : toggleSolo tl st this u = st u := by
  unfold toggleSolo
  rw [toggleSolo_foldl, List.count_eq_zero_of_not_mem hu]
  rfl

theorem toggleSolo_apply_of_mem (tl : trackList) (st : trackStore) (this u : trackPtr)
    (hnd : tl.Nodup) (hu : u ∈ tl) :
    toggleSolo tl st this u =
      toggleSoloOn (decide (u = this)) (st this).m_soloModel (soloBefore st this tl) (st u) := by
  unfold toggleSolo
  rw [toggleSolo_foldl, List.count_eq_one_of_mem hnd hu]
  rfl

theorem soloBefore_eq_true (st : trackStore) (this : trackPtr) (tl : trackList) :
    soloBefore st this tl = true ↔ ∃ u ∈ tl, u ≠ this ∧ (st u).m_soloModel = true := by
  induction tl with
  | nil => simp [soloBefore]
  | cons it rest ih =>
    unfold soloBefore
    by_cases h : it = this
    · simp [h, ih]
    · by_cases hs : (st it).m_soloModel = true
      · simp only [ne_eq, h, not_false_eq_true, if_true, hs]
        simp only [List.mem_cons, true_iff]
        exact ⟨it, Or.inl rfl, h, hs⟩
      · simp only [ne_eq, h, not_false_eq_true, if_true, hs, Bool.false_eq_true, if_false, ih]
        constructor
        · rintro ⟨u, hu, hne, hsu⟩
          exact ⟨u, List.mem_cons_of_mem _ hu, hne, hsu⟩
        · rintro ⟨u, hu, hne, hsu⟩
          rcases List.mem_cons.mp hu with rfl | hu
          · exact absurd hsu hs
          · exact ⟨u, hu, hne, hsu⟩

theorem soloBefore_eq_false (st : trackStore) (this : trackPtr) (tl : trackList) :
    soloBefore st this tl = false ↔ ∀ u ∈ tl, u ≠ this → (st u).m_soloModel = false := by
  rw [← Bool.not_eq_true, soloBefore_eq_true]
  constructor
  · intro h u hu hne
    rw [← Bool.not_eq_true]
    exact fun hs => h ⟨u, hu, hne, hs⟩
  · rintro h ⟨u, hu, hne, hs⟩
    rw [h u hu hne] at hs
    exact Bool.false_ne_true hs

/-- The nested call of `toggleSolo` that clearing the solo model of another
track `u` can start changes nothing: `this` is in the list with its solo model
set and `u`'s is cleared. -/
theorem toggleSolo_reentered (tl : trackList) (st : trackStore) (this u : trackPtr)
    (hin : this ∈ tl) (hne : u ≠ this) (hsolo : (st this).m_soloModel = true)
    (hu : (st u).m_soloModel = false) : toggleSolo tl st u = st := by
  have hb : soloBefore st u tl = true :=
    (soloBefore_eq_true st u tl).mpr ⟨this, hin, fun e => hne e.symm, hsolo⟩
  funext q
  unfold toggleSolo
  rw [toggleSolo_foldl, hb, hu]
  have hid : toggleSoloOn (decide (q = u)) false true = id := by
    funext x; simp [toggleSoloOn]
  rw [hid, Function.iterate_id]
  rfl

theorem toggleSoloOn_iterate_muted (isThis solo_before : Bool) (n : Nat) (x : track) :
    ((toggleSoloOn isThis true solo_before)^[n + 1] x).m_mutedModel = !isThis := by
  rw [Function.iterate_succ_apply']
  simp [toggleSoloOn]

theorem toggleSoloOn_iterate_solo_other (solo_before : Bool) (n : Nat) (x : track) :
    ((toggleSoloOn false true solo_before)^[n + 1] x).m_soloModel = false := by
  rw [Function.iterate_succ_apply']
  simp [toggleSoloOn]

theorem toggleSoloOn_iterate_solo_this (solo solo_before : Bool) (n : Nat) (x : track) :
    ((toggleSoloOn true solo solo_before)^[n] x).m_soloModel = x.m_soloModel := by
  induction n with
  | zero => rfl
  | succ k ih =>
    rw [Function.iterate_succ_apply', ← ih]
    cases solo <;> cases solo_before <;> simp [toggleSoloOn]

/-- C7: when `toggleSolo` runs on a track `this` of the container's list whose
solo flag is set, afterwards `this` is not muted, every other track of the list
is muted and has its solo flag cleared, and so a track of the list has its solo
flag set if and only if it is `this`. -/
theorem toggleSolo_solo_on (tl : trackList) (st : trackStore) (this : trackPtr)
    (hin : this ∈ tl) (hsolo : (st this).m_soloModel = true) :
    (toggleSolo tl st this this).isMuted = false ∧
    (∀ u ∈ tl, u ≠ this →
      (toggleSolo tl st this u).isMuted = true ∧
      (toggleSolo tl st this u).m_soloModel = false) ∧
    (∀ u ∈ tl, (toggleSolo tl st this u).m_soloModel = true ↔ u = this) := by
  have hcount : ∀ u ∈ tl, ∃ n, tl.count u = n + 1 := by
    intro u hu
    have hpos : 0 < tl.count u := List.count_pos_iff.mpr hu
    exact ⟨tl.count u - 1, by omega⟩
  have hthis_solo : (toggleSolo tl st this this).m_soloModel = true := by
    unfold toggleSolo
    rw [toggleSolo_foldl]
    simp only [decide_True]
    rw [toggleSoloOn_iterate_solo_this, hsolo]
  have hother : ∀ u ∈ tl, u ≠ this →
      (toggleSolo tl st this u).isMuted = true ∧
      (toggleSolo tl st this u).m_soloModel = false := by
    intro u hu hne
    obtain ⟨n, hn⟩ := hcount u hu
    unfold toggleSolo isMuted
    rw [toggleSolo_foldl, hn, hsolo]
    simp only [hne, decide_False]
    exact ⟨by rw [toggleSoloOn_iterate_muted]; rfl, toggleSoloOn_iterate_solo_other _ _ _⟩
  refine ⟨?_, hother, ?_⟩
  · obtain ⟨n, hn⟩ := hcount this hin
    unfold toggleSolo isMuted
    rw [toggleSolo_foldl, hn, hsolo]
    simp only [decide_True]
    rw [toggleSoloOn_iterate_muted]; rfl
  · intro u hu
    constructor
    · intro hs
      by_contra hne
      rw [(hother u hu hne).2] at hs
      exact Bool.false_ne_true hs
    · rintro rfl
      exact hthis_solo

/-- Instance of C7: tracks 0, 1, 2 with track 1 newly soloed while track 2 is
still soloed. -/
theorem toggleSolo_solo_on_witness :
    (1 : trackPtr) ∈ ([0, 1, 2] : trackList) ∧
    (withSolo (withSolo sampleTracks 2 true) 1 true 1).m_soloModel = true ∧
    ((toggleSolo [0, 1, 2] (withSolo (withSolo sampleTracks 2 true) 1 true) 1 1).isMuted
        = false ∧
      (∀ u ∈ ([0, 1, 2] : trackList), u ≠ 1 →
        (toggleSolo [0, 1, 2] (withSolo (withSolo sampleTracks 2 true) 1 true) 1 u).isMuted
          = true ∧
        (toggleSolo [0, 1, 2]
          (withSolo (withSolo sampleTracks 2 true) 1 true) 1 u).m_soloModel = false) ∧
      (∀ u ∈ ([0, 1, 2] : trackList),
        (toggleSolo [0, 1, 2]
          (withSolo (withSolo sampleTracks 2 true) 1 true) 1 u).m_soloModel = true ↔
          u = 1)) :=
  ⟨by decide, by decide,
    toggleSolo_solo_on [0, 1, 2] (withSolo (withSolo sampleTracks 2 true) 1 true) 1
      (by decide) (by decide)⟩

/-- C8: when `toggleSolo` runs on a track `this` whose solo flag is set, in a
list without repeated tracks: if no other track of the list has its solo flag
set at the start of the call, the `m_mutedBeforeSolo` of every track of the
list becomes the mute value that track has at the start of the call; if another
track of the list has its solo flag set, no track's `m_mutedBeforeSolo`
changes. -/
theorem toggleSolo_snapshot (tl : trackList) (st : trackStore) (this : trackPtr)
    (hnd : tl.Nodup) (hsolo : (st this).m_soloModel = true) :
    ((∀ u ∈ tl, u ≠ this → (st u).m_soloModel = false) →
      ∀ u ∈ tl, (toggleSolo tl st this u).m_mutedBeforeSolo = (st u).isMuted) ∧
    ((∃ u ∈ tl, u ≠ this ∧ (st u).m_soloModel = true) →
      ∀ u, (toggleSolo tl st this u).m_mutedBeforeSolo = (st u).m_mutedBeforeSolo) := by
  constructor
  · intro h u hu
    have hb := (soloBefore_eq_false st this tl).mpr h
    rw [toggleSolo_apply_of_mem tl st this u hnd hu, hsolo, hb]
    simp [toggleSoloOn, isMuted]
  · intro h u
    have hb := (soloBefore_eq_true st this tl).mpr h
    by_cases hu : u ∈ tl
    · rw [toggleSolo_apply_of_mem tl st this u hnd hu, hsolo, hb]
      simp [toggleSoloOn]
    · rw [toggleSolo_apply_of_not_mem tl st this u hu]

/-- Instance of C8 on tracks 0, 1, 2: track 1 newly soloed with no other track
soloed (the snapshot is taken), and track 1 newly soloed while track 2 is
soloed (no snapshot changes). -/
theorem toggleSolo_snapshot_witness :
    ([0, 1, 2] : trackList).Nodup ∧
    (withSolo sampleTracks 1 true 1).m_soloModel = true ∧
    (∀ u ∈ ([0, 1, 2] : trackList),
      (toggleSolo [0, 1, 2] (withSolo sampleTracks 1 true) 1 u).m_mutedBeforeSolo =
        (withSolo sampleTracks 1 true u).isMuted) ∧
    (∀ u, (toggleSolo [0, 1, 2]
        (withSolo (withSolo sampleTracks 2 true) 1 true) 1 u).m_mutedBeforeSolo =
      (withSolo (withSolo sampleTracks 2 true) 1 true u).m_mutedBeforeSolo) :=
  ⟨by decide, by decide,
    (toggleSolo_snapshot [0, 1, 2] (withSolo sampleTracks 1 true) 1
      (by decide) (by decide)).1 (by decide),
    (toggleSolo_snapshot [0, 1, 2] (withSolo (withSolo sampleTracks 2 true) 1 true) 1
      (by decide) (by decide)).2 ⟨2, by decide, by decide, by decide⟩⟩

@[simp]
theorem withSolo_muted (st : trackStore) (t u : trackPtr) (v : Bool) :
    (withSolo st t v u).m_mutedModel = (st u).m_mutedModel := by
  unfold withSolo setAt
  split
  · rename_i h; rw [h]
  · rfl

@[simp]
theorem withSolo_mutedBeforeSolo (st : trackStore) (t u : trackPtr) (v : Bool) :
    (withSolo st t v u).m_mutedBeforeSolo = (st u).m_mutedBeforeSolo := by
  unfold withSolo setAt
  split
  · rename_i h; rw [h]
  · rfl

@[simp]
theorem withSolo_solo_same (st : trackStore) (t : trackPtr) (v : Bool) :
    (withSolo st t v t).m_soloModel = v := by
  simp [withSolo, setAt]

theorem withSolo_solo_other (st : trackStore) (t u : trackPtr) (v : Bool) (h : u ≠ t) :
    (withSolo st t v u).m_soloModel = (st u).m_soloModel := by
  simp [withSolo, setAt, h]

theorem soloDomain_first (tl : trackList) (st : trackStore) (t : trackPtr)
    (hnd : tl.Nodup) (h0 : ∀ u ∈ tl, (st u).m_soloModel = false) (ht : t ∈ tl) :
    soloDomain tl st (activateSolo tl st t) t := by
  have hb : soloBefore (withSolo st t true) t tl = false := by
    rw [soloBefore_eq_false]
    intro u hu hne
    rw [withSolo_solo_other _ _ _ _ hne]
    exact h0 u hu
  refine ⟨ht, ?_, ?_⟩
  · intro u hu
    unfold activateSolo
    rw [toggleSolo_apply_of_mem _ _ _ _ hnd hu, hb, withSolo_solo_same]
    simp [toggleSoloOn]
  · intro u hu
    unfold activateSolo
    rw [toggleSolo_apply_of_mem _ _ _ _ hnd hu, hb, withSolo_solo_same]
    by_cases h : u = t
    · subst h; simp [toggleSoloOn]
    · simp [toggleSoloOn, h]

theorem soloDomain_switch (tl : trackList) (orig st : trackStore) (t x : trackPtr)
    (hnd : tl.Nodup) (hd : soloDomain tl orig st t) (hx : x ∈ tl) (hne : t ≠ x) :
    soloDomain tl orig (activateSolo tl st x) x := by
  obtain ⟨ht, hsnap, hsolo⟩ := hd
  have hb : soloBefore (withSolo st x true) x tl = true := by
    rw [soloBefore_eq_true]
    refine ⟨t, ht, hne, ?_⟩
    rw [withSolo_solo_other _ _ _ _ hne, hsolo t ht]
    simp
  refine ⟨hx, ?_, ?_⟩
  · intro u hu
    unfold activateSolo
    rw [toggleSolo_apply_of_mem _ _ _ _ hnd hu, hb, withSolo_solo_same]
    simp [toggleSoloOn, hsnap u hu]
  · intro u hu
    unfold activateSolo
    rw [toggleSolo_apply_of_mem _ _ _ _ hnd hu, hb, withSolo_solo_same]
    by_cases h : u = x
    · subst h; simp [toggleSoloOn]
    · simp [toggleSoloOn, h]

theorem soloDomain_foldl (tl : trackList) (orig : trackStore) (hnd : tl.Nodup)
    (ts : List trackPtr) :
    ∀ (st : trackStore) (t : trackPtr), soloDomain tl orig st t →
      List.Chain (fun a b => a ≠ b) t ts → (∀ x ∈ ts, x ∈ tl) →
      soloDomain tl orig (ts.foldl (activateSolo tl) st) (ts.getLastD t) := by
  induction ts with
  | nil => intro st t hd _ _; exact hd
  | cons x xs ih =>
    intro st t hd hch hsub
    have hch2 := List.chain_cons.mp hch
    rw [List.foldl_cons, List.getLastD_cons]
    exact ih _ x (soloDomain_switch tl orig st t x hnd hd (hsub x (List.mem_cons_self _ _))
      hch2.1) hch2.2 (fun y hy => hsub y (List.mem_cons_of_mem _ hy))

theorem soloDomain_deactivate (tl : trackList) (orig st : trackStore) (t : trackPtr)
    (hnd : tl.Nodup) (hd : soloDomain tl orig st t) :
    ∀ u ∈ tl, (deactivateSolo tl st t u).m_mutedModel = (orig u).m_mutedModel := by
  obtain ⟨_, hsnap, hsolo⟩ := hd
  have hb : soloBefore (withSolo st t false) t tl = false := by
    rw [soloBefore_eq_false]
    intro u hu hne
    rw [withSolo_solo_other _ _ _ _ hne, hsolo u hu]
    simp [hne]
  intro u hu
  unfold deactivateSolo
  rw [toggleSolo_apply_of_mem _ _ _ _ hnd hu, hb, withSolo_solo_same]
  simp [toggleSoloOn, hsnap u hu]

/-- C9: in a list without repeated tracks in which no track is soloed, after
solo activations on tracks of the list, each on a track other than the one
soloed just before, followed by un-soloing the track activated last, the mute
flag of every track of the list is the one it had before the first activation,
muted or not. -/
theorem soloSession_restores_mute (tl : trackList) (st : trackStore)
    (ts : List trackPtr) (hnd : tl.Nodup)
    (h0 : ∀ u ∈ tl, (st u).m_soloModel = false) (hsub : ∀ t ∈ ts, t ∈ tl)
    (hch : ts.Chain' (fun a b => a ≠ b)) :
    ∀ u ∈ tl, (soloSession tl st ts u).isMuted = (st u).isMuted := by
  cases ts with
  | nil => intro u _; rfl
  | cons t rest =>
    show ∀ u ∈ tl, (deactivateSolo tl ((t :: rest).foldl (activateSolo tl) st)
      (rest.getLastD t) u).isMuted = (st u).isMuted
    rw [List.foldl_cons]
    have h1 := soloDomain_first tl st t hnd h0 (hsub t (List.mem_cons_self _ _))
    have h2 := soloDomain_foldl tl st hnd rest _ t h1 hch
      (fun y hy => hsub y (List.mem_cons_of_mem _ hy))
    exact soloDomain_deactivate tl st _ _ hnd h2

/-- Instance of C9: tracks 0 (unmuted), 1 (muted), 2 (unmuted); solo on 0, then
on 2, then on 1, then on 2 again, and un-solo of 2. -/
theorem soloSession_restores_mute_witness :
    ([0, 1, 2] : trackList).Nodup ∧
    (∀ u ∈ ([0, 1, 2] : trackList), (sampleTracks u).m_soloModel = false) ∧
    (∀ t ∈ ([0, 2, 1, 2] : List trackPtr), t ∈ ([0, 1, 2] : trackList)) ∧
    ([0, 2, 1, 2] : List trackPtr).Chain' (fun a b => a ≠ b) ∧
    (sampleTracks 1).isMuted = true ∧
    (activateSolo [0, 1, 2] sampleTracks 0 1).m_mutedBeforeSolo = true ∧
    (∀ u ∈ ([0, 1, 2] : trackList),
      (soloSession [0, 1, 2] sampleTracks [0, 2, 1, 2] u).isMuted =
        (sampleTracks u).isMuted) :=
  ⟨by decide, by decide, by decide, by simp, by decide, by decide,
    soloSession_restores_mute [0, 1, 2] sampleTracks [0, 2, 1, 2]
      (by decide) (by decide) (by decide) (by simp)⟩

/-! ## swapPositionOfTCOs -/

theorem index_natCast (v : tcoVector) (i : Nat) : tcoVector.index v (i : Int) = v[i]? := by
  simp [tcoVector.index]

theorem swapPositionOfTCOs_nat (t : track) (st : tcoStore) (i j : Nat) (pa pb : tcoPtr)
    (hij : i ≠ j) (ha : t.m_trackContentObjects[i]? = some pa)
    (hb : t.m_trackContentObjects[j]? = some pb) :
    t.swapPositionOfTCOs st (i : Int) (j : Int) =
      some ({ t with m_trackContentObjects := (t.m_trackContentObjects.set i pb).set j pa },
        setAt (setAt st pb ((st pb).movePosition (st pa).startPosition)) pa
          ((setAt st pb ((st pb).movePosition (st pa).startPosition) pa).movePosition
            (st pb).startPosition)) := by
  have hi : i < t.m_trackContentObjects.length := (List.getElem?_eq_some.mp ha).1
  have hj : j < t.m_trackContentObjects.length := (List.getElem?_eq_some.mp hb).1
  have h1 : ((t.m_trackContentObjects.set i pb).set j pa)[i]? = some pb := by
    rw [List.getElem?_set_ne (fun e => hij e.symm), List.getElem?_set_self hi]
  have h2 : ((t.m_trackContentObjects.set i pb).set j pa)[j]? = some pa := by
    rw [List.getElem?_set_self (by rw [List.length_set]; exact hj)]
  unfold swapPositionOfTCOs
  simp only [index_natCast, Int.toNat_ofNat, ha, hb, h1, h2, Option.bind_eq_bind,
    Option.some_bind, Option.pure_def]

/-- C10: for valid indices `a != b`, `swapPositionOfTCOs(a, b)` succeeds; the
block `pa` formerly at index `a` is at index `b` afterwards and has the start
position that the block `pb` formerly at index `b` had, and `pb` is at index `a`
with the start position `pa` had; every other index holds the block it held,
every block other than `pa` and `pb` is unchanged, and every block has the
length it had. -/
theorem swapPositionOfTCOs_swaps (t : track) (st : tcoStore) (a b : Int)
    (ha0 : 0 ≤ a) (ha : a < t.numOfTCOs) (hb0 : 0 ≤ b) (hb : b < t.numOfTCOs)
    (hab : a ≠ b) :
    ∃ (pa pb : tcoPtr) (t2 : track) (st2 : tcoStore),
      t.m_trackContentObjects.index a = some pa ∧
      t.m_trackContentObjects.index b = some pb ∧
      t.swapPositionOfTCOs st a b = some (t2, st2) ∧
      t2.m_trackContentObjects.index b = some pa ∧
      t2.m_trackContentObjects.index a = some pb ∧
      (st2 pa).startPosition = (st pb).startPosition ∧
      (st2 pb).startPosition = (st pa).startPosition ∧
      t2.numOfTCOs = t.numOfTCOs ∧
      (∀ k : Int, k ≠ a → k ≠ b →
        t2.m_trackContentObjects.index k = t.m_trackContentObjects.index k) ∧
      (∀ q : tcoPtr, q ≠ pa → q ≠ pb → st2 q = st q) ∧
      (∀ q : tcoPtr, (st2 q).length = (st q).length) := by
  obtain ⟨i, rfl⟩ := Int.eq_ofNat_of_zero_le ha0
  obtain ⟨j, rfl⟩ := Int.eq_ofNat_of_zero_le hb0
  have hi : i < t.m_trackContentObjects.length := by
    unfold numOfTCOs at ha; exact_mod_cast ha
  have hj : j < t.m_trackContentObjects.length := by
    unfold numOfTCOs at hb; exact_mod_cast hb
  have hij : i ≠ j := fun e => hab (by rw [e])
  have hpa : t.m_trackContentObjects[i]? = some t.m_trackContentObjects[i] :=
    List.getElem?_eq_getElem hi
  have hpb : t.m_trackContentObjects[j]? = some t.m_trackContentObjects[j] :=
    List.getElem?_eq_getElem hj
  refine ⟨t.m_trackContentObjects[i], t.m_trackContentObjects[j], _, _,
    by rw [index_natCast, hpa], by rw [index_natCast, hpb],
    swapPositionOfTCOs_nat t st i j _ _ hij hpa hpb, ?_, ?_, ?_, ?_, ?_, ?_, ?_, ?_⟩
  · rw [index_natCast]
    exact List.getElem?_set_self (by rw [List.length_set]; exact hj)
  · rw [index_natCast]
    show ((t.m_trackContentObjects.set i _).set j _)[i]? = _
    rw [List.getElem?_set_ne (fun e => hij e.symm), List.getElem?_set_self hi]
  · unfold trackContentObject.startPosition
    rw [setAt_same, trackContentObject.movePosition_start]
  · unfold trackContentObject.startPosition
    by_cases h : t.m_trackContentObjects[j] = t.m_trackContentObjects[i]
    · rw [h, setAt_same, trackContentObject.movePosition_start]
    · rw [setAt_other _ _ _ _ h, setAt_same, trackContentObject.movePosition_start]
  · show ((((t.m_trackContentObjects.set i _).set j _).length : Nat) : Int) = _
    rw [List.length_set, List.length_set]
    rfl
  · intro k hki hkj
    unfold tcoVector.index
    split
    · rename_i hk0
      show ((t.m_trackContentObjects.set i _).set j _)[k.toNat]? = _
      have h1 : j ≠ k.toNat := by omega
      have h2 : i ≠ k.toNat := by omega
      rw [List.getElem?_set_ne h1, List.getElem?_set_ne h2]
    · rfl
  · intro q hqa hqb
    rw [setAt_other _ _ _ _ hqa, setAt_other _ _ _ _ hqb]
  · intro q
    unfold trackContentObject.length
    by_cases h1 : q = t.m_trackContentObjects[i]
    · rw [h1, setAt_same, trackContentObject.movePosition_length]
      by_cases h2 : t.m_trackContentObjects[i] = t.m_trackContentObjects[j]
      · rw [h2, setAt_same, trackContentObject.movePosition_length]
      · rw [setAt_other _ _ _ _ h2]
    · rw [setAt_other _ _ _ _ h1]
      by_cases h2 : q = t.m_trackContentObjects[j]
      · rw [h2, setAt_same, trackContentObject.movePosition_length]
      · rw [setAt_other _ _ _ _ h2]

/-- Instance of C10: indices 0 and 1 of the sample track, which hold block 2
(start 30) and block 0 (start 0). -/
theorem swapPositionOfTCOs_swaps_witness :
    (0 : Int) ≤ 0 ∧ (0 : Int) < sampleTrack.numOfTCOs ∧
    (0 : Int) ≤ 1 ∧ (1 : Int) < sampleTrack.numOfTCOs ∧ (0 : Int) ≠ 1 ∧
    (∃ (pa pb : tcoPtr) (t2 : track) (st2 : tcoStore),
      sampleTrack.m_trackContentObjects.index 0 = some pa ∧
      sampleTrack.m_trackContentObjects.index 1 = some pb ∧
      sampleTrack.swapPositionOfTCOs sampleBlocks 0 1 = some (t2, st2) ∧
      t2.m_trackContentObjects.index 1 = some pa ∧
      t2.m_trackContentObjects.index 0 = some pb ∧
      (st2 pa).startPosition = (sampleBlocks pb).startPosition ∧
      (st2 pb).startPosition = (sampleBlocks pa).startPosition ∧
      t2.numOfTCOs = sampleTrack.numOfTCOs ∧
      (∀ k : Int, k ≠ 0 → k ≠ 1 →
        t2.m_trackContentObjects.index k = sampleTrack.m_trackContentObjects.index k) ∧
      (∀ q : tcoPtr, q ≠ pa → q ≠ pb → st2 q = sampleBlocks q) ∧
      (∀ q : tcoPtr, (st2 q).length = (sampleBlocks q).length)) :=
  ⟨by decide, by decide, by decide, by decide, by decide,
    swapPositionOfTCOs_swaps sampleTrack sampleBlocks 0 1
      (by decide) (by decide) (by decide) (by decide) (by decide)⟩

end track

/-! ## insertTact and removeTact -/

namespace track

theorem foldl_setAt_apply {α : Type} (g : α → α) (step : (Nat → α) → Nat → (Nat → α))
    (hstep : ∀ st it, step st it = setAt st it (g (st it)))
    (l : List Nat) (st : Nat → α) (p : Nat) :
    (l.foldl step st) p = g^[l.count p] (st p) := by
  induction l generalizing st with
  | nil => rfl
  | cons it rest ih =>
    rw [List.foldl_cons, ih, hstep]
    by_cases h : p = it
    · subst h
      rw [List.count_cons_self, Function.iterate_succ_apply, setAt_same]
    · rw [List.count_cons_of_ne h, setAt_other _ _ _ _ h]

theorem foldl_setAt_of_mem {α : Type} (g : α → α) (step : (Nat → α) → Nat → (Nat → α))
    (hstep : ∀ st it, step st it = setAt st it (g (st it)))
    (l : List Nat) (st : Nat → α) (p : Nat) (hnd : l.Nodup) (hp : p ∈ l) :
    (l.foldl step st) p = g (st p) := by
  rw [foldl_setAt_apply g step hstep, List.count_eq_one_of_mem hnd hp]
  rfl

theorem foldl_setAt_of_not_mem {α : Type} (g : α → α)
    (step : (Nat → α) → Nat → (Nat → α))
    (hstep : ∀ st it, step st it = setAt st it (g (st it)))
    (l : List Nat) (st : Nat → α) (p : Nat) (hp : p ∉ l) :
    (l.foldl step st) p = st p := by
  rw [foldl_setAt_apply g step hstep, List.count_eq_zero_of_not_mem hp]
  rfl

theorem tMax_eq_max (a b : Int) : tMax a b = max a b := by
  unfold tMax
  split <;> omega

theorem insertTactStep_eq (ticksPerTact : tick) (_pos : midiTime) (st : tcoStore)
    (it : tcoPtr) :
    insertTactStep ticksPerTact _pos st it =
      setAt st it (insertTactOn ticksPerTact _pos (st it)) := by
  unfold insertTactStep insertTactOn
  split
  · rfl
  · exact (setAt_self st it).symm

theorem removeTactStep_eq (ticksPerTact : tick) (_pos : midiTime) (st : tcoStore)
    (it : tcoPtr) :
    removeTactStep ticksPerTact _pos st it =
      setAt st it (removeTactOn ticksPerTact _pos (st it)) := by
  unfold removeTactStep removeTactOn
  split
  · rfl
  · exact (setAt_self st it).symm

theorem insertTact_apply_of_mem (t : track) (ticksPerTact : tick) (st : tcoStore)
    (_pos : midiTime) (b : tcoPtr) (hnd : t.m_trackContentObjects.Nodup)
    (hb : b ∈ t.m_trackContentObjects) :
    (t.insertTact ticksPerTact st _pos).2 b = insertTactOn ticksPerTact _pos (st b) :=
  foldl_setAt_of_mem _ _ (insertTactStep_eq ticksPerTact _pos) _ st b hnd hb

theorem insertTact_apply_of_not_mem (t : track) (ticksPerTact : tick) (st : tcoStore)
    (_pos : midiTime) (b : tcoPtr) (hb : b ∉ t.m_trackContentObjects) :
    (t.insertTact ticksPerTact st _pos).2 b = st b :=
  foldl_setAt_of_not_mem _ _ (insertTactStep_eq ticksPerTact _pos) _ st b hb

theorem removeTact_apply_of_mem (t : track) (ticksPerTact : tick) (st : tcoStore)
    (_pos : midiTime) (b : tcoPtr) (hnd : t.m_trackContentObjects.Nodup)
    (hb : b ∈ t.m_trackContentObjects) :
    (t.removeTact ticksPerTact st _pos).2 b = removeTactOn ticksPerTact _pos (st b) :=
  foldl_setAt_of_mem _ _ (removeTactStep_eq ticksPerTact _pos) _ st b hnd hb

theorem removeTact_apply_of_not_mem (t : track) (ticksPerTact : tick) (st : tcoStore)
    (_pos : midiTime) (b : tcoPtr) (hb : b ∉ t.m_trackContentObjects) :
    (t.removeTact ticksPerTact st _pos).2 b = st b :=
  foldl_setAt_of_not_mem _ _ (removeTactStep_eq ticksPerTact _pos) _ st b hb

theorem wrap32_of_isInt (x : Int) (h : isInt x) : wrap32 x = x := by
  unfold wrap32
  obtain ⟨h1, h2⟩ := h
  omega

theorem isInt_wrap32 (x : Int) : isInt (wrap32 x) := by
  unfold wrap32
  constructor <;> omega

theorem insertTactOn_start_of_ge (ticksPerTact : tick) (_pos : midiTime)
    (x : trackContentObject) (h : x.startPosition ≥ _pos) :
    (insertTactOn ticksPerTact _pos x).startPosition =
      wrap32 (x.startPosition + ticksPerTact) := by
  unfold insertTactOn
  rw [if_pos h]
  exact trackContentObject.movePosition_start _ _

theorem insertTactOn_of_lt (ticksPerTact : tick) (_pos : midiTime)
    (x : trackContentObject) (h : x.startPosition < _pos) :
    insertTactOn ticksPerTact _pos x = x := by
  unfold insertTactOn
  rw [if_neg (not_le.mpr h)]

theorem insertTactOn_length (ticksPerTact : tick) (_pos : midiTime)
    (x : trackContentObject) :
    (insertTactOn ticksPerTact _pos x).length = x.length := by
  unfold insertTactOn
  split
  · exact trackContentObject.movePosition_length _ _
  · rfl

theorem removeTactOn_start_of_ge (ticksPerTact : tick) (_pos : midiTime)
    (x : trackContentObject) (h : x.startPosition ≥ _pos) :
    (removeTactOn ticksPerTact _pos x).startPosition =
      max (wrap32 (x.startPosition - ticksPerTact)) 0 := by
  unfold removeTactOn
  rw [if_pos h, tMax_eq_max]
  exact trackContentObject.movePosition_start _ _

theorem removeTactOn_of_lt (ticksPerTact : tick) (_pos : midiTime)
    (x : trackContentObject) (h : x.startPosition < _pos) :
    removeTactOn ticksPerTact _pos x = x := by
  unfold removeTactOn
  rw [if_neg (not_le.mpr h)]

theorem removeTactOn_length (ticksPerTact : tick) (_pos : midiTime)
    (x : trackContentObject) :
    (removeTactOn ticksPerTact _pos x).length = x.length := by
  unfold removeTactOn
  split
  · exact trackContentObject.movePosition_length _ _
  · rfl

/-- The sum of the loop of `insertTact` at start 2147483600 with a tact of 192
ticks: the 32-bit sum is negative. -/
theorem insertTactOn_wraps :
    (insertTactOn 192 0 (blockAt 2147483600 10)).startPosition = -2147483504 := by
  decide

/-- C11: on a track whose collection holds every block once, `insertTact(pos)`
gives every block of the collection whose start is `>= pos` the start
`start + ticksPerTact`, where that sum is an `int`, and `removeTact(pos)` gives
it the start `max(start - ticksPerTact, 0)`, where that difference is an `int`;
a block whose start is before `pos` and a block outside the collection are
unchanged, every block keeps its length, and the track, with the order of its
collection, is the same after the call. -/
theorem insertTact_removeTact_shift (t : track) (ticksPerTact : tick) (st : tcoStore)
    (_pos : midiTime) (hnd : t.m_trackContentObjects.Nodup) :
    ((t.insertTact ticksPerTact st _pos).1 = t ∧
      (∀ b ∈ t.m_trackContentObjects, (st b).startPosition ≥ _pos →
        isInt ((st b).startPosition + ticksPerTact) →
        ((t.insertTact ticksPerTact st _pos).2 b).startPosition =
          (st b).startPosition + ticksPerTact) ∧
      (∀ b, (st b).startPosition < _pos →
        (t.insertTact ticksPerTact st _pos).2 b = st b) ∧
      (∀ b, b ∉ t.m_trackContentObjects →
        (t.insertTact ticksPerTact st _pos).2 b = st b) ∧
      (∀ b, ((t.insertTact ticksPerTact st _pos).2 b).length = (st b).length)) ∧
    ((t.removeTact ticksPerTact st _pos).1 = t ∧
      (∀ b ∈ t.m_trackContentObjects, (st b).startPosition ≥ _pos →
        isInt ((st b).startPosition - ticksPerTact) →
        ((t.removeTact ticksPerTact st _pos).2 b).startPosition =
          max ((st b).startPosition - ticksPerTact) 0) ∧
      (∀ b, (st b).startPosition < _pos →
        (t.removeTact ticksPerTact st _pos).2 b = st b) ∧
      (∀ b, b ∉ t.m_trackContentObjects →
        (t.removeTact ticksPerTact st _pos).2 b = st b) ∧
      (∀ b, ((t.removeTact ticksPerTact st _pos).2 b).length = (st b).length)) := by
  refine ⟨⟨rfl, ?_, ?_, insertTact_apply_of_not_mem t ticksPerTact st _pos, ?_⟩,
    ⟨rfl, ?_, ?_, removeTact_apply_of_not_mem t ticksPerTact st _pos, ?_⟩⟩
  · intro b hb hge hfit
    rw [insertTact_apply_of_mem t _ st _ b hnd hb, insertTactOn_start_of_ge _ _ _ hge,
      wrap32_of_isInt _ hfit]
  · intro b hlt
    by_cases hb : b ∈ t.m_trackContentObjects
    · rw [insertTact_apply_of_mem t _ st _ b hnd hb]
      exact insertTactOn_of_lt _ _ _ hlt
    · exact insertTact_apply_of_not_mem t _ st _ b hb
  · intro b
    by_cases hb : b ∈ t.m_trackContentObjects
    · rw [insertTact_apply_of_mem t _ st _ b hnd hb]
      exact insertTactOn_length _ _ _
    · rw [insertTact_apply_of_not_mem t _ st _ b hb]
  · intro b hb hge hfit
    rw [removeTact_apply_of_mem t _ st _ b hnd hb, removeTactOn_start_of_ge _ _ _ hge,
      wrap32_of_isInt _ hfit]
  · intro b hlt
    by_cases hb : b ∈ t.m_trackContentObjects
    · rw [removeTact_apply_of_mem t _ st _ b hnd hb]
      exact removeTactOn_of_lt _ _ _ hlt
    · exact removeTact_apply_of_not_mem t _ st _ b hb
  · intro b
    by_cases hb : b ∈ t.m_trackContentObjects
    · rw [removeTact_apply_of_mem t _ st _ b hnd hb]
      exact removeTactOn_length _ _ _
    · rw [removeTact_apply_of_not_mem t _ st _ b hb]

/-- Instance of C11: the sample track (blocks 2, 0, 1, 3 with starts 30, 0, 0,
12), one tact of 192 ticks inserted and removed at tick 12; the sums and
differences are `int`s. -/
theorem insertTact_removeTact_shift_witness :
    sampleTrack.m_trackContentObjects.Nodup ∧
    (∀ b ∈ sampleTrack.m_trackContentObjects,
      isInt ((sampleBlocks b).startPosition + 192) ∧
      isInt ((sampleBlocks b).startPosition - 192)) ∧
    ((sampleTrack.insertTact 192 sampleBlocks 12).2 2).startPosition = 222 ∧
    ((sampleTrack.insertTact 192 sampleBlocks 12).2 0).startPosition = 0 ∧
    ((sampleTrack.removeTact 192 sampleBlocks 12).2 2).startPosition = 0 ∧
    (∀ b ∈ sampleTrack.m_trackContentObjects, (sampleBlocks b).startPosition ≥ 12 →
      isInt ((sampleBlocks b).startPosition + 192) →
      ((sampleTrack.insertTact 192 sampleBlocks 12).2 b).startPosition =
        (sampleBlocks b).startPosition + 192) ∧
    (∀ b ∈ sampleTrack.m_trackContentObjects, (sampleBlocks b).startPosition ≥ 12 →
      isInt ((sampleBlocks b).startPosition - 192) →
      ((sampleTrack.removeTact 192 sampleBlocks 12).2 b).startPosition =
        max ((sampleBlocks b).startPosition - 192) 0) :=
  ⟨by decide, by decide, by decide, by decide, by decide,
    (insertTact_removeTact_shift sampleTrack 192 sampleBlocks 12 (by decide)).1.2.1,
    (insertTact_removeTact_shift sampleTrack 192 sampleBlocks 12 (by decide)).2.2.1⟩

/-- C12: on a track whose collection holds every block once and whose blocks
all start at tick 0 or later, with a tact of at least 0 ticks and every sum
`start + ticksPerTact` that `insertTact(pos)` computes at most `INT_MAX`,
`insertTact(pos)` followed by `removeTact(pos)` leaves every block with the
start position and the length it had, and leaves the track as it was. -/
theorem insertTact_then_removeTact (t : track) (ticksPerTact : tick) (st : tcoStore)
    (_pos : midiTime) (hnd : t.m_trackContentObjects.Nodup) (htpt : 0 ≤ ticksPerTact)
    (h0 : ∀ b ∈ t.m_trackContentObjects, 0 ≤ (st b).startPosition)
    (hfit : ∀ b ∈ t.m_trackContentObjects, (st b).startPosition ≥ _pos →
      (st b).startPosition + ticksPerTact ≤ 2147483647) :
    ((t.insertTact ticksPerTact st _pos).1.removeTact ticksPerTact
        (t.insertTact ticksPerTact st _pos).2 _pos).1 = t ∧
    ∀ b,
      (((t.insertTact ticksPerTact st _pos).1.removeTact ticksPerTact
          (t.insertTact ticksPerTact st _pos).2 _pos).2 b).startPosition =
        (st b).startPosition ∧
      (((t.insertTact ticksPerTact st _pos).1.removeTact ticksPerTact
          (t.insertTact ticksPerTact st _pos).2 _pos).2 b).length = (st b).length := by
  refine ⟨rfl, ?_⟩
  intro b
  have h1 : (t.insertTact ticksPerTact st _pos).1 = t := rfl
  rw [h1]
  by_cases hb : b ∈ t.m_trackContentObjects
  · rw [removeTact_apply_of_mem t _ _ _ b hnd hb, insertTact_apply_of_mem t _ st _ b hnd hb]
    refine ⟨?_, by rw [removeTactOn_length, insertTactOn_length]⟩
    by_cases hge : (st b).startPosition ≥ _pos
    · have h0b : 0 ≤ (st b).startPosition := h0 b hb
      have hfb : (st b).startPosition + ticksPerTact ≤ 2147483647 := hfit b hb hge
      have hsum : isInt ((st b).startPosition + ticksPerTact) :=
        ⟨by have : (0 : Int) ≤ (st b).startPosition + ticksPerTact := add_nonneg h0b htpt
            exact le_trans (by decide) this, hfb⟩
      have hs : (insertTactOn ticksPerTact _pos (st b)).startPosition =
          (st b).startPosition + ticksPerTact := by
        rw [insertTactOn_start_of_ge ticksPerTact _pos (st b) hge, wrap32_of_isInt _ hsum]
      have hge2 : (insertTactOn ticksPerTact _pos (st b)).startPosition ≥ _pos := by
        rw [hs]; exact le_trans hge (le_add_of_nonneg_right htpt)
      have hback : isInt ((st b).startPosition + ticksPerTact - ticksPerTact) := by
        rw [add_sub_cancel_right]
        exact ⟨le_trans (by decide) h0b,
          le_trans (le_add_of_nonneg_right htpt) hfb⟩
      rw [removeTactOn_start_of_ge _ _ _ hge2, hs, wrap32_of_isInt _ hback,
        add_sub_cancel_right]
      exact max_eq_left h0b
    · have hlt : (st b).startPosition < _pos := not_le.mp hge
      rw [insertTactOn_of_lt _ _ _ hlt, removeTactOn_of_lt _ _ _ hlt]
  · rw [removeTact_apply_of_not_mem t _ _ _ b hb, insertTact_apply_of_not_mem t _ st _ b hb]
    exact ⟨rfl, rfl⟩

/-- Instance of C12: the sample track, one tact of 192 ticks inserted at tick 0
and removed again; block 0, at tick 0, goes to tick 192 and back. -/
theorem insertTact_then_removeTact_witness :
    sampleTrack.m_trackContentObjects.Nodup ∧ (0 : tick) ≤ 192 ∧
    (∀ b ∈ sampleTrack.m_trackContentObjects, 0 ≤ (sampleBlocks b).startPosition) ∧
    (∀ b ∈ sampleTrack.m_trackContentObjects, (sampleBlocks b).startPosition ≥ 0 →
      (sampleBlocks b).startPosition + 192 ≤ 2147483647) ∧
    ((sampleTrack.insertTact 192 sampleBlocks 0).2 0).startPosition = 192 ∧
    (∀ b,
      (((sampleTrack.insertTact 192 sampleBlocks 0).1.removeTact 192
          (sampleTrack.insertTact 192 sampleBlocks 0).2 0).2 b).startPosition =
        (sampleBlocks b).startPosition ∧
      (((sampleTrack.insertTact 192 sampleBlocks 0).1.removeTact 192
          (sampleTrack.insertTact 192 sampleBlocks 0).2 0).2 b).length =
        (sampleBlocks b).length) :=
  ⟨by decide, by decide, by decide, by decide, by decide,
    (insertTact_then_removeTact sampleTrack 192 sampleBlocks 0
      (by decide) (by decide) (by decide) (by decide)).2⟩

/-! ## track::length -/

theorem lengthLoop_eq_foldl (st : tcoStore) (v : tcoVector) (last : tick) :
    lengthLoop st v last = (v.map (fun b => (st b).endPosition)).foldl max last := by
  induction v generalizing last with
  | nil => rfl
  | cons it rest ih =>
    unfold lengthLoop
    simp only [List.map_cons, List.foldl_cons]
    split
    · rename_i h
      rw [ih, max_eq_right (le_of_lt h)]
    · rename_i h
      rw [ih, max_eq_left (not_lt.mp h)]

theorem foldl_max_eq (l : List Int) (x a : Int) :
    l.foldl max (max x a) = max x (l.foldl max a) := by
  induction l generalizing a with
  | nil => rfl
  | cons y ys ih =>
    simp only [List.foldl_cons]
    rw [max_assoc, ih]

theorem lengthLoop_zero (st : tcoStore) (v : tcoVector) :
    lengthLoop st v 0 = max 0 (maxEndPosition st v) := by
  rw [lengthLoop_eq_foldl]
  unfold maxEndPosition
  cases v with
  | nil => rfl
  | cons it rest =>
    simp only [List.map_cons, List.foldl_cons, List.max?_cons', Option.getD_some]
    exact foldl_max_eq _ 0 _

theorem maxEndPosition_nonneg (st : tcoStore) (v : tcoVector)
    (h0 : ∀ b ∈ v, 0 ≤ (st b).endPosition) : 0 ≤ maxEndPosition st v := by
  unfold maxEndPosition
  cases hm : (v.map (fun b => (st b).endPosition)).max? with
  | none => exact le_refl _
  | some m =>
    have hmem : m ∈ v.map (fun b => (st b).endPosition) :=
      List.max?_mem (fun a b => by rcases le_total a b with h | h <;> simp [h]) hm
    obtain ⟨b, hb, rfl⟩ := List.mem_map.mp hmem
    exact h0 b hb

/-- The loop of `length()` starts from `last = 0`: with a tact of more than 0
ticks the result is floor(max(0, M) / ticksPerTact), M the maximum end
position of the blocks. -/
theorem length_eq_floor (t : track) (ticksPerTact : tick) (st : tcoStore)
    (htpt : 0 < ticksPerTact) :
    t.length ticksPerTact st =
      Int.fdiv (max 0 (maxEndPosition st t.m_trackContentObjects)) ticksPerTact := by
  unfold length
  rw [lengthLoop_zero]
  exact (Int.fdiv_eq_tdiv (le_max_left _ _) (le_of_lt htpt)).symm

/-- C13: with a tact of more than 0 ticks, on a track none of whose blocks
ends before tick 0, `length()` is floor(M / ticksPerTact), where M is the
maximum end position of the track's blocks and 0 for a track without blocks;
the result is 0 for a track without blocks, and a partial last bar is not
counted: `length() * ticksPerTact <= M < (length() + 1) * ticksPerTact`. -/
theorem length_eq_floor_of_max_end (t : track) (ticksPerTact : tick) (st : tcoStore)
    (htpt : 0 < ticksPerTact)
    (h0 : ∀ b ∈ t.m_trackContentObjects, 0 ≤ (st b).endPosition) :
    t.length ticksPerTact st =
      Int.fdiv (maxEndPosition st t.m_trackContentObjects) ticksPerTact ∧
    (t.m_trackContentObjects = [] →
      maxEndPosition st t.m_trackContentObjects = 0 ∧ t.length ticksPerTact st = 0) ∧
    t.length ticksPerTact st * ticksPerTact ≤ maxEndPosition st t.m_trackContentObjects ∧
    maxEndPosition st t.m_trackContentObjects <
      (t.length ticksPerTact st + 1) * ticksPerTact := by
  have hM : 0 ≤ maxEndPosition st t.m_trackContentObjects := maxEndPosition_nonneg st _ h0
  have hlen : t.length ticksPerTact st =
      Int.fdiv (maxEndPosition st t.m_trackContentObjects) ticksPerTact := by
    rw [length_eq_floor t ticksPerTact st htpt, max_eq_right hM]
  have hdiv : t.length ticksPerTact st =
      maxEndPosition st t.m_trackContentObjects / ticksPerTact := by
    rw [hlen, Int.fdiv_eq_ediv _ (le_of_lt htpt)]
  refine ⟨hlen, ?_, ?_, ?_⟩
  · intro he
    have hz : maxEndPosition st t.m_trackContentObjects = 0 := by rw [he]; rfl
    refine ⟨hz, ?_⟩
    rw [hdiv, hz]
    exact Int.zero_ediv _
  · rw [hdiv]
    exact Int.ediv_mul_le _ (ne_of_gt htpt)
  · rw [hdiv]
    exact Int.lt_ediv_add_one_mul_self _ htpt

/-- Instance of C13: the sample track ends at tick 35, less than a tact of 192
ticks, so its length is 0 tacts; with a tact of 10 ticks it is 3, the partial
fourth bar not being counted. -/
theorem length_eq_floor_of_max_end_witness :
    (0 : tick) < 10 ∧
    (∀ b ∈ sampleTrack.m_trackContentObjects, 0 ≤ (sampleBlocks b).endPosition) ∧
    maxEndPosition sampleBlocks sampleTrack.m_trackContentObjects = 35 ∧
    sampleTrack.length 192 sampleBlocks = 0 ∧
    sampleTrack.length 10 sampleBlocks = 3 ∧
    (track.initial TrackTypes.InstrumentTrack).length 10 sampleBlocks = 0 ∧
    (sampleTrack.length 10 sampleBlocks =
        Int.fdiv (maxEndPosition sampleBlocks sampleTrack.m_trackContentObjects) 10 ∧
      (sampleTrack.m_trackContentObjects = [] →
        maxEndPosition sampleBlocks sampleTrack.m_trackContentObjects = 0 ∧
          sampleTrack.length 10 sampleBlocks = 0) ∧
      sampleTrack.length 10 sampleBlocks * 10 ≤
        maxEndPosition sampleBlocks sampleTrack.m_trackContentObjects ∧
      maxEndPosition sampleBlocks sampleTrack.m_trackContentObjects <
        (sampleTrack.length 10 sampleBlocks + 1) * 10) :=
  ⟨by decide, by decide, by decide, by decide, by decide, by decide,
    length_eq_floor_of_max_end sampleTrack 10 sampleBlocks (by decide) (by decide)⟩

end track

/-! ## movePosition and changeLength -/

namespace trackContentObject

/-- C14, as stated, fails: `movePosition(-5)` on the sample block leaves the
start position at -5 and `changeLength(-2)` leaves the length at -2; neither is
clamped to 0. -/
theorem movePosition_changeLength_store_negative :
    (sample.movePosition (-5)).startPosition = -5 ∧
    (sample.changeLength (-2)).length = -2 ∧
    ¬ (0 ≤ (sample.movePosition (-5)).startPosition) ∧
    ¬ (0 ≤ (sample.changeLength (-2)).length) := by
  decide

/-- C14, amended: after `movePosition(p)` the start position is `p` and after
`changeLength(n)` the length is `n`, whatever the sign of the argument, and the
other of the two fields is as before; so the field is `>= 0` after the call
exactly when the argument is. -/
theorem movePosition_changeLength_store_argument (b : trackContentObject)
    (p n : midiTime) :
    (b.movePosition p).startPosition = p ∧
    (b.movePosition p).length = b.length ∧
    (b.changeLength n).length = n ∧
    (b.changeLength n).startPosition = b.startPosition ∧
    (0 ≤ (b.movePosition p).startPosition ↔ 0 ≤ p) ∧
    (0 ≤ (b.changeLength n).length ↔ 0 ≤ n) := by
  refine ⟨movePosition_start b p, movePosition_length b p, changeLength_length b n,
    changeLength_start b n, ?_, ?_⟩
  · unfold startPosition; rw [movePosition_start]
  · unfold length; rw [changeLength_length]

/-- C15, as stated, fails: on the sample block (start 3, length 4) with
journalling suspended, as `undoStep` suspends it, `movePosition(10)` sets the
start position to 10 and `changeLength(0)` sets the length to 0, and neither
records a journal entry: both journal stacks stay as they are. -/
theorem movePosition_changeLength_unjournalled :
    (sample.saveJournallingState false).startPosition = 3 ∧
    ((sample.saveJournallingState false).movePosition 10).startPosition = 10 ∧
    ((sample.saveJournallingState false).movePosition 10).undoStack =
      (sample.saveJournallingState false).undoStack ∧
    ((sample.saveJournallingState false).movePosition 10).undoStack.length = 0 ∧
    (sample.saveJournallingState false).length = 4 ∧
    ((sample.saveJournallingState false).changeLength 0).length = 0 ∧
    ((sample.saveJournallingState false).changeLength 0).undoStack =
      (sample.saveJournallingState false).undoStack ∧
    ((sample.saveJournallingState false).changeLength 0).undoStack.length = 0 := by
  decide

/-- C15, amended: `movePosition(p)` with `p` equal to the start position
changes neither journal stack, neither the start position nor the length, and
calls no `updateLength` (only the `positionChanged` signal is emitted),
whatever the journalling flag.  With `p` different from the start `s`, and
`s - p` an `int`, it sets the start position to `p`, keeps the length, calls
`updateLength` once and hands the one entry (Move, `s - p`) to
`addJournalEntry`: on a block with journalling enabled that entry is appended
to the undo stack and the redo stack is cleared, on a block with journalling
suspended both stacks stay as they are.  `changeLength(n)` does the same with
the length, the entry (Resize, `l - n`) and `lengthChanged`. -/
theorem movePosition_changeLength_journal (b : trackContentObject) (p n : midiTime) :
    b.movePosition b.startPosition =
      { b with effects := b.effects ++ [tcoEffect.positionChanged] } ∧
    b.changeLength b.length =
      { b with effects := b.effects ++ [tcoEffect.lengthChanged] } ∧
    (p ≠ b.startPosition → isInt (b.startPosition - p) →
      b.movePosition p =
        { b with
          m_startPosition := p
          undoStack :=
            if b.isJournalling then
              b.undoStack ++ [⟨t_action_id.Move, b.startPosition - p⟩]
            else b.undoStack
          redoStack := if b.isJournalling then [] else b.redoStack
          effects :=
            b.effects ++ [tcoEffect.updateLength] ++ [tcoEffect.positionChanged] }) ∧
    (n ≠ b.length → isInt (b.length - n) →
      b.changeLength n =
        { b with
          m_length := n
          undoStack :=
            if b.isJournalling then
              b.undoStack ++ [⟨t_action_id.Resize, b.length - n⟩]
            else b.undoStack
          redoStack := if b.isJournalling then [] else b.redoStack
          effects :=
            b.effects ++ [tcoEffect.updateLength] ++ [tcoEffect.lengthChanged] }) := by
  refine ⟨?_, ?_, ?_, ?_⟩
  · simp [movePosition, startPosition]
  · simp [changeLength, length]
  · intro hp _
    have hp2 : ¬ b.m_startPosition = p := fun h => hp h.symm
    cases hj : b.m_journalling <;>
      simp [movePosition, addJournalEntry, startPosition, isJournalling, hj, hp2]
  · intro hn _
    have hn2 : ¬ b.m_length = n := fun h => hn h.symm
    cases hj : b.m_journalling <;>
      simp [changeLength, addJournalEntry, length, isJournalling, hj, hn2]

/-- Instance of the amended C15: the sample block (start 3, length 4, empty
journal, journalling enabled) moved to 10 and resized to 0. -/
theorem movePosition_changeLength_journal_witness :
    sample.isJournalling = true ∧ (10 : midiTime) ≠ sample.startPosition ∧
    isInt (sample.startPosition - 10) ∧
    (0 : midiTime) ≠ sample.length ∧ isInt (sample.length - 0) ∧
    (sample.movePosition 3).undoStack = [] ∧
    (sample.movePosition 3).effects = [tcoEffect.positionChanged] ∧
    (sample.movePosition 10).undoStack = [⟨t_action_id.Move, -7⟩] ∧
    (sample.changeLength 0).undoStack = [⟨t_action_id.Resize, 4⟩] ∧
    sample.movePosition 10 =
      { sample with
        m_startPosition := 10
        undoStack :=
          if sample.isJournalling then
            sample.undoStack ++ [⟨t_action_id.Move, sample.startPosition - 10⟩]
          else sample.undoStack
        redoStack := if sample.isJournalling then [] else sample.redoStack
        effects :=
          sample.effects ++ [tcoEffect.updateLength] ++ [tcoEffect.positionChanged] } ∧
    sample.changeLength 0 =
      { sample with
        m_length := 0
        undoStack :=
          if sample.isJournalling then
            sample.undoStack ++ [⟨t_action_id.Resize, sample.length - 0⟩]
          else sample.undoStack
        redoStack := if sample.isJournalling then [] else sample.redoStack
        effects :=
          sample.effects ++ [tcoEffect.updateLength] ++ [tcoEffect.lengthChanged] } :=
  ⟨rfl, by decide, by decide, by decide, by decide, by decide, by decide, by decide,
    by decide,
    (movePosition_changeLength_journal sample 10 0).2.2.1 (by decide) (by decide),
    (movePosition_changeLength_journal sample 10 0).2.2.2 (by decide) (by decide)⟩

end trackContentObject

/-! ## removeTCO, getTCO and getTCONum -/

namespace track

theorem qFind_le (v : tcoVector) (b : tcoPtr) : qFind v b ≤ v.length := by
  induction v with
  | nil => exact Nat.le_refl _
  | cons x rest ih =>
    unfold qFind
    split
    · exact Nat.zero_le _
    · simp only [List.length_cons]; omega

theorem qFind_eq_length (v : tcoVector) (b : tcoPtr) :
    qFind v b = v.length ↔ b ∉ v := by
  induction v with
  | nil => simp [qFind]
  | cons x rest ih =>
    unfold qFind
    by_cases h : x = b
    · simp [h]
    · have h2 : ¬ b = x := fun e => h e.symm
      simp only [h, if_false, List.length_cons, List.mem_cons, h2, false_or]
      rw [← ih]
      omega

theorem qFind_split (v : tcoVector) (b : tcoPtr) (hb : b ∈ v) :
    ∃ pre post, v = pre ++ b :: post ∧ b ∉ pre ∧ qFind v b = pre.length ∧
      v.eraseIdx (qFind v b) = pre ++ post := by
  induction v with
  | nil => exact absurd hb (List.not_mem_nil _)
  | cons x rest ih =>
    by_cases h : x = b
    · subst h
      exact ⟨[], rest, rfl, List.not_mem_nil _, by simp [qFind], by simp [qFind]⟩
    · have hb2 : b ∈ rest := by
        rcases List.mem_cons.mp hb with e | e
        · exact absurd e.symm h
        · exact e
      obtain ⟨pre, post, hv, hpre, hq, he⟩ := ih hb2
      refine ⟨x :: pre, post, by rw [hv]; rfl, ?_, ?_, ?_⟩
      · intro hm
        rcases List.mem_cons.mp hm with e | e
        · exact h e.symm
        · exact hpre e
      · simp [qFind, h, hq]
      · simp [qFind, h, he]

theorem index_qFind (v : tcoVector) (b : tcoPtr) (hb : b ∈ v) :
    tcoVector.index v (qFind v b : Int) = some b := by
  obtain ⟨pre, post, hv, _, hq, _⟩ := qFind_split v b hb
  rw [index_natCast, hq, hv, List.getElem?_append_right (Nat.le_refl _)]
  simp

theorem qFind_getElem (v : tcoVector) (hnd : v.Nodup) (i : Nat) (hi : i < v.length) :
    qFind v v[i] = i := by
  induction v generalizing i with
  | nil => exact absurd hi (Nat.not_lt_zero _)
  | cons x rest ih =>
    have hnd2 := List.nodup_cons.mp hnd
    cases i with
    | zero => simp [qFind]
    | succ k =>
      have hk : k < rest.length := by simpa using hi
      have hne : ¬ x = rest[k] := by
        intro e
        exact hnd2.1 (e ▸ List.getElem_mem hk)
      simp only [List.getElem_cons_succ, qFind, hne, if_false]
      rw [ih hnd2.2 k hk]

/-- C18: `removeTCO(b)` on a track whose collection contains `b` takes out the
first occurrence of `b`: the entries before it and the entries after it stay,
in their order, and `numOfTCOs` goes down by one; `removeTCO(b)` on a track
whose collection does not contain `b`, the track without blocks among them,
leaves the track as it is. -/
theorem removeTCO_removes (t : track) (b : tcoPtr) :
    (b ∈ t.m_trackContentObjects →
      ∃ pre post, t.m_trackContentObjects = pre ++ b :: post ∧ b ∉ pre ∧
        (t.removeTCO b).m_trackContentObjects = pre ++ post ∧
        (t.removeTCO b).numOfTCOs = t.numOfTCOs - 1 ∧
        (t.removeTCO b).m_trackContentObjects.filter (fun x => decide (x ≠ b)) =
          t.m_trackContentObjects.filter (fun x => decide (x ≠ b))) ∧
    (b ∉ t.m_trackContentObjects → t.removeTCO b = t) := by
  constructor
  · intro hb
    obtain ⟨pre, post, hv, hpre, hq, he⟩ := qFind_split _ b hb
    have hne : qFind t.m_trackContentObjects b ≠ t.m_trackContentObjects.length := by
      rw [Ne, qFind_eq_length]; exact fun h => h hb
    have hr : (t.removeTCO b).m_trackContentObjects = pre ++ post := by
      unfold removeTCO
      simp only [hne, ne_eq, not_false_eq_true, if_true]
      exact he
    refine ⟨pre, post, hv, hpre, hr, ?_, ?_⟩
    · unfold numOfTCOs
      rw [hr, hv]
      simp only [List.length_append, List.length_cons]
      push_cast
      ring
    · rw [hr, hv]
      simp
  · intro hc
    unfold removeTCO
    have he : qFind t.m_trackContentObjects b = t.m_trackContentObjects.length :=
      (qFind_eq_length _ b).mpr hc
    simp [he]

/-- Instance of C18: block 0 removed from the sample track (collection 2, 0,
1, 3); block 7, which is not in it; and block 0 removed from a track without
blocks. -/
theorem removeTCO_removes_witness :
    (0 : tcoPtr) ∈ sampleTrack.m_trackContentObjects ∧
    (7 : tcoPtr) ∉ sampleTrack.m_trackContentObjects ∧
    (0 : tcoPtr) ∉ (track.initial TrackTypes.InstrumentTrack).m_trackContentObjects ∧
    (sampleTrack.removeTCO 0).m_trackContentObjects = [2, 1, 3] ∧
    (∃ pre post, sampleTrack.m_trackContentObjects = pre ++ 0 :: post ∧ 0 ∉ pre ∧
      (sampleTrack.removeTCO 0).m_trackContentObjects = pre ++ post ∧
      (sampleTrack.removeTCO 0).numOfTCOs = sampleTrack.numOfTCOs - 1 ∧
      (sampleTrack.removeTCO 0).m_trackContentObjects.filter (fun x => decide (x ≠ 0)) =
        sampleTrack.m_trackContentObjects.filter (fun x => decide (x ≠ 0))) ∧
    sampleTrack.removeTCO 7 = sampleTrack ∧
    (track.initial TrackTypes.InstrumentTrack).removeTCO 0 =
      track.initial TrackTypes.InstrumentTrack :=
  ⟨by decide, by decide, by decide, by decide,
    (removeTCO_removes sampleTrack 0).1 (by decide),
    (removeTCO_removes sampleTrack 7).2 (by decide),
    (removeTCO_removes (track.initial TrackTypes.InstrumentTrack) 0).2 (by decide)⟩

theorem createTCO_track (t : track) (st : tcoStore) (_new : tcoPtr) (_pos : midiTime) :
    (t.createTCO st _new _pos).1 = t.addTCO _new := rfl

theorem createTCO_other (t : track) (st : tcoStore) (_new : tcoPtr) (_pos : midiTime)
    (q : tcoPtr) (hq : q ≠ _new) : (t.createTCO st _new _pos).2 q = st q := by
  unfold createTCO newTCO
  simp only [setAt_other _ _ _ _ hq]

/-- C19: `getTCO` of `getTCONum(b)` returns `b` for a block `b` of the
collection, and on a track whose collection has no duplicate entries
`getTCONum` of the block `getTCO(i)` returns is `i` for a valid index `i`,
neither changing the track or the blocks; for a block `c` that is not in the
collection, on every track, the track without blocks among them, `getTCONum`
returns 0 and leaves the track as it is. -/
theorem getTCO_getTCONum_inverse (t : track) (ticksPerTact : tick) (st : tcoStore)
    (_new : tcoPtr) :
    (∀ b, b ∈ t.m_trackContentObjects →
      (t.getTCONum b).1 = t ∧
      t.getTCO ticksPerTact st _new (t.getTCONum b).2 = some (b, t, st)) ∧
    (t.m_trackContentObjects.Nodup → ∀ i : Int, 0 ≤ i → i < t.numOfTCOs →
      ∃ p, t.getTCO ticksPerTact st _new i = some (p, t, st) ∧ t.getTCONum p = (t, i)) ∧
    (∀ c, c ∉ t.m_trackContentObjects → t.getTCONum c = (t, 0)) := by
  refine ⟨?_, ?_, ?_⟩
  · intro b hb
    have hbne : qFind t.m_trackContentObjects b ≠ t.m_trackContentObjects.length := by
      rw [Ne, qFind_eq_length]; exact fun h => h hb
    have hnum : t.getTCONum b = (t, (qFind t.m_trackContentObjects b : Int)) := by
      unfold getTCONum
      simp only [hbne, ne_eq, not_false_eq_true, if_true]
    refine ⟨by rw [hnum], ?_⟩
    rw [hnum]
    unfold getTCO
    have hlt : ((qFind t.m_trackContentObjects b : Nat) : Int) <
        (t.m_trackContentObjects.length : Int) := by
      have := qFind_le t.m_trackContentObjects b
      exact_mod_cast lt_of_le_of_ne this hbne
    simp only [hlt, if_true, index_qFind _ _ hb]
  · intro hnd i hi0 hi
    obtain ⟨k, rfl⟩ := Int.eq_ofNat_of_zero_le hi0
    have hk : k < t.m_trackContentObjects.length := by
      unfold numOfTCOs at hi; exact_mod_cast hi
    refine ⟨t.m_trackContentObjects[k], ?_, ?_⟩
    · unfold getTCO
      have hlt : (k : Int) < (t.m_trackContentObjects.length : Int) := by exact_mod_cast hk
      rw [if_pos hlt, index_natCast, List.getElem?_eq_getElem hk]
    · unfold getTCONum
      have hq := qFind_getElem _ hnd k hk
      have hne : k ≠ t.m_trackContentObjects.length := Nat.ne_of_lt hk
      simp only [hq, hne, ne_eq, not_false_eq_true, if_true]
  · intro c hc
    unfold getTCONum
    have he := (qFind_eq_length t.m_trackContentObjects c).mpr hc
    simp [he]

/-- Instance of C19: the sample track (collection 2, 0, 1, 3), block 1, index
3 and the absent block 7; and block 0 on a track without blocks. -/
theorem getTCO_getTCONum_inverse_witness :
    sampleTrack.m_trackContentObjects.Nodup ∧
    (1 : tcoPtr) ∈ sampleTrack.m_trackContentObjects ∧
    (0 : Int) ≤ 3 ∧ (3 : Int) < sampleTrack.numOfTCOs ∧
    (7 : tcoPtr) ∉ sampleTrack.m_trackContentObjects ∧
    (0 : tcoPtr) ∉ (track.initial TrackTypes.InstrumentTrack).m_trackContentObjects ∧
    (sampleTrack.getTCONum 1).2 = 2 ∧
    ((sampleTrack.getTCONum 1).1 = sampleTrack ∧
      sampleTrack.getTCO 192 sampleBlocks 9 (sampleTrack.getTCONum 1).2 =
        some (1, sampleTrack, sampleBlocks)) ∧
    (∃ p, sampleTrack.getTCO 192 sampleBlocks 9 3 = some (p, sampleTrack, sampleBlocks) ∧
      sampleTrack.getTCONum p = (sampleTrack, 3)) ∧
    sampleTrack.getTCONum 7 = (sampleTrack, 0) ∧
    (track.initial TrackTypes.InstrumentTrack).getTCONum 0 =
      (track.initial TrackTypes.InstrumentTrack, 0) :=
  ⟨by decide, by decide, by decide, by decide, by decide, by decide, by decide,
    (getTCO_getTCONum_inverse sampleTrack 192 sampleBlocks 9).1 1 (by decide),
    (getTCO_getTCONum_inverse sampleTrack 192 sampleBlocks 9).2.1 (by decide) 3
      (by decide) (by decide),
    (getTCO_getTCONum_inverse sampleTrack 192 sampleBlocks 9).2.2 7 (by decide),
    (getTCO_getTCONum_inverse (track.initial TrackTypes.InstrumentTrack) 192
      sampleBlocks 9).2.2 0 (by decide)⟩

/-! ## track::create -/

/-- C16, as stated, fails: for `SampleTrack` the case of the switch is
commented out, and `create` returns `NULL` and adds no track; the hook
`updateAfterTrackAdd` is still called once. -/
theorem create_sampleTrack_null :
    (create TrackTypes.SampleTrack sampleProject 5).1 = none ∧
    (create TrackTypes.SampleTrack sampleProject 5).2.container.m_tracks =
      sampleProject.container.m_tracks ∧
    (create TrackTypes.SampleTrack sampleProject 5).2.container.updateAfterTrackAddCalls =
      sampleProject.container.updateAfterTrackAddCalls + 1 := by
  decide

/-- C16, amended: for every track type other than `SampleTrack`
(`InstrumentTrack`, `BBTrack`, `AutomationTrack`, `HiddenAutomationTrack`),
`create` returns the newly allocated track, which has the requested type and
is appended to the container's list; for every track type, `SampleTrack`
included, the hook `updateAfterTrackAdd` is called exactly once; for
`SampleTrack` the result is `NULL` and the list is unchanged. -/
theorem create_builds_track (_tt : TrackTypes) (w : project) (_new : trackPtr)
    (h : _tt ≠ TrackTypes.SampleTrack) :
    (create _tt w _new).1 = some _new ∧
    ((create _tt w _new).2.tracks _new).m_type = _tt ∧
    (create _tt w _new).2.container.m_tracks = w.container.m_tracks ++ [_new] ∧
    (create _tt w _new).2.container.updateAfterTrackAddCalls =
      w.container.updateAfterTrackAddCalls + 1 ∧
    (create TrackTypes.SampleTrack w _new).1 = none ∧
    (create TrackTypes.SampleTrack w _new).2.container.m_tracks = w.container.m_tracks ∧
    (create TrackTypes.SampleTrack w _new).2.container.updateAfterTrackAddCalls =
      w.container.updateAfterTrackAddCalls + 1 := by
  cases _tt <;>
    first
    | exact absurd rfl h
    | simp [create, newTrack, initial, trackContainer.addTrack,
        trackContainer.updateAfterTrackAdd]

/-- Instance of the amended C16: a hidden automation track created at address
5 in the sample project. -/
theorem create_builds_track_witness :
    TrackTypes.HiddenAutomationTrack ≠ TrackTypes.SampleTrack ∧
    (create TrackTypes.HiddenAutomationTrack sampleProject 5).2.container.m_tracks =
      [0, 1, 5] ∧
    ((create TrackTypes.HiddenAutomationTrack sampleProject 5).1 = some 5 ∧
    ((create TrackTypes.HiddenAutomationTrack sampleProject 5).2.tracks 5).m_type =
      TrackTypes.HiddenAutomationTrack ∧
    (create TrackTypes.HiddenAutomationTrack sampleProject 5).2.container.m_tracks =
      sampleProject.container.m_tracks ++ [5] ∧
    (create TrackTypes.HiddenAutomationTrack sampleProject 5).2.container.updateAfterTrackAddCalls =
      sampleProject.container.updateAfterTrackAddCalls + 1 ∧
    (create TrackTypes.SampleTrack sampleProject 5).1 = none ∧
    (create TrackTypes.SampleTrack sampleProject 5).2.container.m_tracks =
      sampleProject.container.m_tracks ∧
    (create TrackTypes.SampleTrack sampleProject 5).2.container.updateAfterTrackAddCalls =
      sampleProject.container.updateAfterTrackAddCalls + 1) :=
  ⟨by decide, by decide,
    create_builds_track TrackTypes.HiddenAutomationTrack sampleProject 5 (by decide)⟩

/-! ## clone, saveSettings and loadSettings -/

theorem tcoSummary_restoreState (b : trackContentObject) (e : tcoElement) :
    tcoSummary (b.restoreState e) = (e.pos, e.len, e.muted) := by
  unfold tcoSummary trackContentObject.restoreState trackContentObject.startPosition
    trackContentObject.length
  simp only [trackContentObject.changeLength_start, trackContentObject.movePosition_start,
    trackContentObject.changeLength_length]

theorem tcoElements_saveSettings (t : track) (st : tcoStore) :
    tcoElements (t.saveSettings st).children =
      t.m_trackContentObjects.map (fun it => (st it).saveState) := by
  unfold saveSettings
  simp only [tcoElements]
  induction t.m_trackContentObjects with
  | nil => rfl
  | cons x rest ih => simp only [List.map_cons, tcoElements, ih]

theorem loadSettingsLoop_spec (children : List domNode) :
    ∀ (t : track) (st : tcoStore) (next : tcoPtr),
      (loadSettingsLoop children t st next).1.m_type = t.m_type ∧
      (loadSettingsLoop children t st next).1.m_mutedModel = t.m_mutedModel ∧
      (loadSettingsLoop children t st next).1.m_trackContentObjects =
        t.m_trackContentObjects ++ List.range' next (tcoElements children).length ∧
      (List.range' next (tcoElements children).length).map
          (fun p => tcoSummary ((loadSettingsLoop children t st next).2 p)) =
        (tcoElements children).map (fun e => (e.pos, e.len, e.muted)) ∧
      (∀ q, q < next → (loadSettingsLoop children t st next).2 q = st q) := by
  induction children with
  | nil =>
    intro t st next
    simp [loadSettingsLoop, tcoElements]
  | cons node rest ih =>
    intro t st next
    cases node with
    | trackSpecific => simpa only [loadSettingsLoop, tcoElements] using ih t st next
    | metadata => simpa only [loadSettingsLoop, tcoElements] using ih t st next
    | noElement => simpa only [loadSettingsLoop, tcoElements] using ih t st next
    | tco e =>
      simp only [loadSettingsLoop, tcoElements, List.length_cons, List.map_cons]
      obtain ⟨h1, h2, h3, h4, h5⟩ := ih (t.createTCO st next 0).1
        (setAt (t.createTCO st next 0).2 next (((t.createTCO st next 0).2 next).restoreState e))
        (next + 1)
      refine ⟨h1, h2, ?_, ?_, ?_⟩
      · rw [h3, createTCO_track]
        simp [addTCO, List.range'_succ]
      · rw [List.range'_succ, List.map_cons, h4, h5 next (Nat.lt_succ_self _), setAt_same,
          tcoSummary_restoreState]
      · intro q hq
        rw [h5 q (Nat.lt_succ_of_lt hq), setAt_other _ _ _ _ (Nat.ne_of_lt hq),
          createTCO_other _ _ _ _ q (Nat.ne_of_lt hq)]

theorem loadSettings_initial (_type : TrackTypes) (st : tcoStore) (_this : trackElement)
    (next : tcoPtr) :
    (initial _type).loadSettings st _this next =
      Except.ok (loadSettingsLoop _this.children
        ((initial _type).setMuted _this.mutedAttr) st next) := rfl

/-- C20, as stated, fails: a track of type `SampleTrack`, built by the
constructor `track::track` at address 7 of the sample project, is in the
container's list; `clone` on it runs to its end and the container's track
list is the same as before, `create` having returned `NULL`: no track is
added. -/
theorem clone_sampleTrack_adds_nothing :
    ((newTrack TrackTypes.SampleTrack sampleProject 7).tracks 7).m_type =
      TrackTypes.SampleTrack ∧
    (newTrack TrackTypes.SampleTrack sampleProject 7).container.m_tracks = [0, 1, 7] ∧
    (clone 7 (newTrack TrackTypes.SampleTrack sampleProject 7) 5 10).toOption.map
        (fun w => w.container.m_tracks) =
      some (newTrack TrackTypes.SampleTrack sampleProject 7).container.m_tracks := by
  decide

/-- C20, amended: for a track whose type is not `SampleTrack`, `clone` appends
exactly one new track to the container's list; the new track has the type and
the mute flag of the original and as many blocks, and its blocks have, in
collection order, the start position, length and mute flag of the blocks of
the original (the save and restore of a block carrying those three over);
every other track is unchanged.  For a track whose type is `SampleTrack`,
`clone` adds no track: the container's list, the tracks and the blocks are as
before, and only the hook `updateAfterTrackAdd` has been called.
`saveSettings` writes the blocks in collection order after the track-specific
element, and `loadSettings` on a new track creates one block per block
element, in document order. -/
theorem clone_copies_track (w : project) (self _new : trackPtr) (next : tcoPtr) :
    ((w.tracks self).m_type ≠ TrackTypes.SampleTrack →
      ∃ w2, clone self w _new next = Except.ok w2 ∧
        w2.container.m_tracks = w.container.m_tracks ++ [_new] ∧
        (w2.tracks _new).m_type = (w.tracks self).m_type ∧
        (w2.tracks _new).isMuted = (w.tracks self).isMuted ∧
        (w2.tracks _new).m_trackContentObjects.length =
          (w.tracks self).m_trackContentObjects.length ∧
        (w2.tracks _new).m_trackContentObjects.map (fun p => tcoSummary (w2.tcos p)) =
          (w.tracks self).m_trackContentObjects.map (fun p => tcoSummary (w.tcos p)) ∧
        (∀ q, q ≠ _new → w2.tracks q = w.tracks q)) ∧
    ((w.tracks self).m_type = TrackTypes.SampleTrack →
      ∃ w2, clone self w _new next = Except.ok w2 ∧
        w2.container.m_tracks = w.container.m_tracks ∧
        w2.container.updateAfterTrackAddCalls =
          w.container.updateAfterTrackAddCalls + 1 ∧
        w2.tracks = w.tracks ∧ w2.tcos = w.tcos) ∧
    ((w.tracks self).saveSettings w.tcos).children =
      domNode.trackSpecific ::
        (w.tracks self).m_trackContentObjects.map
          (fun p => domNode.tco (w.tcos p).saveState) ∧
    (∀ (el : trackElement) (ty : TrackTypes),
      ∃ r, (initial ty).loadSettings w.tcos el next = Except.ok r ∧
        r.1.m_trackContentObjects = List.range' next (tcoElements el.children).length ∧
        r.1.m_trackContentObjects.map (fun p => tcoSummary (r.2 p)) =
          (tcoElements el.children).map (fun e => (e.pos, e.len, e.muted))) := by
  have hload : ∀ (el : trackElement) (ty : TrackTypes),
      ∃ r, (initial ty).loadSettings w.tcos el next = Except.ok r ∧
        r.1.m_type = ty ∧ r.1.m_mutedModel = el.mutedAttr ∧
        r.1.m_trackContentObjects = List.range' next (tcoElements el.children).length ∧
        r.1.m_trackContentObjects.map (fun p => tcoSummary (r.2 p)) =
          (tcoElements el.children).map (fun e => (e.pos, e.len, e.muted)) := by
    intro el ty
    obtain ⟨h1, h2, h3, h4, _⟩ :=
      loadSettingsLoop_spec el.children ((initial ty).setMuted el.mutedAttr) w.tcos next
    have h3b : (loadSettingsLoop el.children ((initial ty).setMuted el.mutedAttr)
        w.tcos next).1.m_trackContentObjects =
        List.range' next (tcoElements el.children).length := by
      rw [h3]; rfl
    exact ⟨_, loadSettings_initial ty w.tcos el next, h1, h2, h3b, by rw [h3b]; exact h4⟩
  have hty : ((w.tracks self).saveState w.tcos).typeAttr = (w.tracks self).m_type := rfl
  refine ⟨?_, ?_, rfl, fun el ty => ?_⟩
  · intro htype
    obtain ⟨r, hr, ht, hm, hb, hs⟩ :=
      hload ((w.tracks self).saveState w.tcos) (w.tracks self).m_type
    have hcreate : create (w.tracks self).m_type w _new =
        (some _new,
          { newTrack (w.tracks self).m_type w _new with
            container := (newTrack (w.tracks self).m_type w _new).container.updateAfterTrackAdd }) := by
      revert htype
      cases (w.tracks self).m_type <;> intro htype <;>
        first
        | exact absurd rfl htype
        | rfl
    have hes : tcoElements ((w.tracks self).saveState w.tcos).children =
        (w.tracks self).m_trackContentObjects.map (fun it => (w.tcos it).saveState) :=
      tcoElements_saveSettings _ _
    refine ⟨{ container := (w.container.addTrack _new).updateAfterTrackAdd
              tracks := setAt (setAt w.tracks _new (initial (w.tracks self).m_type)) _new r.1
              tcos := r.2 }, ?_, rfl, ?_, ?_, ?_, ?_, ?_⟩
    · simp only [clone, createFromElement, hty, hcreate, newTrack, setAt_same,
        restoreState, hr]
    · simp only [setAt_same]; exact ht
    · simp only [setAt_same, isMuted]; rw [hm]; rfl
    · simp only [setAt_same]
      rw [hb, List.length_range', hes, List.length_map]
    · simp only [setAt_same]
      rw [hs, hes, List.map_map]
      rfl
    · intro q hq
      simp only [setAt_other _ _ _ _ hq]
  · intro htype
    have hcreate : create (w.tracks self).m_type w _new =
        (none, { w with container := w.container.updateAfterTrackAdd }) := by
      rw [htype]; rfl
    refine ⟨{ w with container := w.container.updateAfterTrackAdd }, ?_, rfl, rfl, rfl, rfl⟩
    simp only [clone, createFromElement, hty, hcreate]
  · obtain ⟨r, hr, _, _, hb, hs⟩ := hload el ty
    exact ⟨r, hr, hb, hs⟩

/-- Instance of the amended C20: track 0 of the sample project (an instrument
track with the blocks 2, 0, 1, 3) cloned to address 5, its blocks to the
addresses 10 to 13; and track 1 of the sample project, of type `SampleTrack`,
cloned. -/
theorem clone_copies_track_witness :
    (sampleProject.tracks 0).m_type ≠ TrackTypes.SampleTrack ∧
    (sampleProject.tracks 1).m_type = TrackTypes.SampleTrack ∧
    (clone 0 sampleProject 5 10).toOption.map
        (fun w => ((w.tracks 5).m_trackContentObjects, tcoSummary (w.tcos 10))) =
      some ([10, 11, 12, 13], (30, 5, false)) ∧
    (∃ w2, clone 0 sampleProject 5 10 = Except.ok w2 ∧
      w2.container.m_tracks = sampleProject.container.m_tracks ++ [5] ∧
      (w2.tracks 5).m_type = (sampleProject.tracks 0).m_type ∧
      (w2.tracks 5).isMuted = (sampleProject.tracks 0).isMuted ∧
      (w2.tracks 5).m_trackContentObjects.length =
        (sampleProject.tracks 0).m_trackContentObjects.length ∧
      (w2.tracks 5).m_trackContentObjects.map (fun p => tcoSummary (w2.tcos p)) =
        (sampleProject.tracks 0).m_trackContentObjects.map
          (fun p => tcoSummary (sampleProject.tcos p)) ∧
      (∀ q, q ≠ 5 → w2.tracks q = sampleProject.tracks q)) ∧
    (∃ w2, clone 1 sampleProject 5 10 = Except.ok w2 ∧
      w2.container.m_tracks = sampleProject.container.m_tracks ∧
      w2.container.updateAfterTrackAddCalls =
        sampleProject.container.updateAfterTrackAddCalls + 1 ∧
      w2.tracks = sampleProject.tracks ∧ w2.tcos = sampleProject.tcos) :=
  ⟨by decide, by decide, by decide,
    (clone_copies_track sampleProject 0 5 10).1 (by decide),
    (clone_copies_track sampleProject 1 5 10).2.1 (by decide)⟩

end track

/-! ## Journalling state across undoStep and redoStep -/

namespace trackContentObject

theorem movePosition_frame_off (b : trackContentObject) (p : midiTime)
    (hj : b.m_journalling = false) :
    (b.movePosition p).m_journalling = false ∧
    (b.movePosition p).m_journallingStateStack = b.m_journallingStateStack ∧
    (b.movePosition p).undoStack = b.undoStack ∧
    (b.movePosition p).redoStack = b.redoStack := by
  unfold movePosition addJournalEntry
  by_cases h : b.m_startPosition = p <;> simp [h, hj]

theorem changeLength_frame_off (b : trackContentObject) (n : midiTime)
    (hj : b.m_journalling = false) :
    (b.changeLength n).m_journalling = false ∧
    (b.changeLength n).m_journallingStateStack = b.m_journallingStateStack ∧
    (b.changeLength n).undoStack = b.undoStack ∧
    (b.changeLength n).redoStack = b.redoStack := by
  unfold changeLength addJournalEntry
  by_cases h : b.m_length = n <;> simp [h, hj]

theorem restoreJournallingState_cons (x : trackContentObject) (f : Bool) (rest : List Bool)
    (h : x.m_journallingStateStack = f :: rest) :
    x.restoreJournallingState.m_journalling = f ∧
    x.restoreJournallingState.m_journallingStateStack = rest ∧
    x.restoreJournallingState.undoStack = x.undoStack ∧
    x.restoreJournallingState.redoStack = x.redoStack := by
  unfold restoreJournallingState
  rw [h]
  exact ⟨rfl, rfl, rfl, rfl⟩

theorem undoStep_frame (b : trackContentObject) (e : journalEntry) :
    (b.undoStep e).m_journalling = b.m_journalling ∧
    (b.undoStep e).m_journallingStateStack = b.m_journallingStateStack ∧
    (b.undoStep e).undoStack = b.undoStack ∧
    (b.undoStep e).redoStack = b.redoStack := by
  obtain ⟨a, d⟩ := e
  have hs : (b.saveJournallingState false).m_journalling = false := rfl
  cases a with
  | Move =>
    obtain ⟨_, h2, h3, h4⟩ := movePosition_frame_off (b.saveJournallingState false)
      ((b.saveJournallingState false).startPosition + d) hs
    obtain ⟨r1, r2, r3, r4⟩ := restoreJournallingState_cons _ b.m_journalling
      b.m_journallingStateStack h2
    exact ⟨r1, r2, r3.trans h3, r4.trans h4⟩
  | Resize =>
    obtain ⟨_, h2, h3, h4⟩ := changeLength_frame_off (b.saveJournallingState false)
      ((b.saveJournallingState false).length + d) hs
    obtain ⟨r1, r2, r3, r4⟩ := restoreJournallingState_cons _ b.m_journalling
      b.m_journallingStateStack h2
    exact ⟨r1, r2, r3.trans h3, r4.trans h4⟩
  | other n =>
    exact ⟨rfl, rfl, rfl, rfl⟩

/-- C21: `undoStep` and `redoStep`, for every journal entry (Move, Resize or
any other action id), leave the journalling flag of the block as it was before
the call, with the stack of saved flags, and leave the undo and redo stacks of
the journal as they were: no entry is recorded while the edit is replayed. -/
theorem undoStep_redoStep_keep_journalling (b : trackContentObject) (e : journalEntry) :
    ((b.undoStep e).isJournalling = b.isJournalling ∧
      (b.undoStep e).m_journallingStateStack = b.m_journallingStateStack ∧
      (b.undoStep e).undoStack = b.undoStack ∧
      (b.undoStep e).redoStack = b.redoStack) ∧
    ((b.redoStep e).isJournalling = b.isJournalling ∧
      (b.redoStep e).m_journallingStateStack = b.m_journallingStateStack ∧
      (b.redoStep e).undoStack = b.undoStack ∧
      (b.redoStep e).redoStack = b.redoStack) :=
  ⟨undoStep_frame b e, undoStep_frame b ⟨e.actionID, -e.data⟩⟩

end trackContentObject

/-! ## getTCO: bounds and the creation branch -/

namespace track

theorem index_eq_none (v : tcoVector) (n : Int) :
    tcoVector.index v n = none ↔ n < 0 ∨ (v.length : Int) ≤ n := by
  unfold tcoVector.index
  by_cases h : 0 ≤ n
  · obtain ⟨k, rfl⟩ := Int.eq_ofNat_of_zero_le h
    simp only [h, if_true, Int.toNat_ofNat, List.getElem?_eq_none_iff]
    constructor
    · intro hk; right; exact_mod_cast hk
    · rintro (hk | hk)
      · omega
      · exact_mod_cast hk
  · simp only [h, if_false, true_iff]
    left; omega

/-- C29: `getTCO(n)` takes its indexing branch exactly when `n < numOfTCOs` and
its creation branch otherwise; it finishes without an access outside the
collection if and only if `n >= 0`, and the case of the indexing branch reached
with an index outside the collection is exactly the case `n < 0`. -/
theorem getTCO_in_bounds_iff (t : track) (ticksPerTact : tick) (st : tcoStore)
    (_new : tcoPtr) (n : Int) :
    t.getTCO ticksPerTact st _new n =
      (if n < t.numOfTCOs then
        (t.m_trackContentObjects.index n).map (fun p => (p, t, st))
      else
        some (_new, (t.createTCO st _new (n * ticksPerTact)).1,
          (t.createTCO st _new (n * ticksPerTact)).2)) ∧
    ((t.getTCO ticksPerTact st _new n).isSome = true ↔ 0 ≤ n) ∧
    ((n < t.numOfTCOs ∧ t.m_trackContentObjects.index n = none) ↔ n < 0) := by
  have hbr : t.getTCO ticksPerTact st _new n =
      (if n < t.numOfTCOs then
        (t.m_trackContentObjects.index n).map (fun p => (p, t, st))
      else
        some (_new, (t.createTCO st _new (n * ticksPerTact)).1,
          (t.createTCO st _new (n * ticksPerTact)).2)) := by
    unfold getTCO numOfTCOs
    split
    · cases t.m_trackContentObjects.index n <;> rfl
    · rfl
  have hlen : (0 : Int) ≤ t.numOfTCOs := by unfold numOfTCOs; exact_mod_cast Nat.zero_le _
  refine ⟨hbr, ?_, ?_⟩
  · rw [hbr]
    by_cases hlt : n < t.numOfTCOs
    · rw [if_pos hlt]
      by_cases h0 : 0 ≤ n
      · have hsome : t.m_trackContentObjects.index n ≠ none := by
          rw [Ne, index_eq_none]
          unfold numOfTCOs at hlt
          omega
        cases hx : t.m_trackContentObjects.index n with
        | none => exact absurd hx hsome
        | some p => simp [h0]
      · have hnone : t.m_trackContentObjects.index n = none :=
          (index_eq_none _ n).mpr (Or.inl (by omega))
        simp [hnone, h0]
    · rw [if_neg hlt]
      have h0 : 0 ≤ n := by omega
      simp [h0]
  · rw [index_eq_none]
    unfold numOfTCOs at hlen ⊢
    constructor
    · rintro ⟨hlt, h | h⟩
      · exact h
      · omega
    · intro h
      exact ⟨by omega, Or.inl h⟩

theorem index_append_length (v : tcoVector) (x : tcoPtr) :
    tcoVector.index (v ++ [x]) (v.length : Int) = some x := by
  rw [index_natCast, List.getElem?_append_right (Nat.le_refl _)]
  simp

theorem qFind_append_fresh (v : tcoVector) (x : tcoPtr) (h : x ∉ v) :
    qFind (v ++ [x]) x = v.length := by
  induction v with
  | nil => simp [qFind]
  | cons y rest ih =>
    have hy : ¬ y = x := fun e => h (e ▸ List.mem_cons_self _ _)
    have hr : x ∉ rest := fun m => h (List.mem_cons_of_mem _ m)
    simp [qFind, hy, ih hr]

/-- C30: when `getTCO(n)` takes the creation branch on a track with
`k = numOfTCOs <= n` blocks, the block created (at a new address) is stored at
collection index `k`: `getTCONum` of the block returned is `k`, the block is at
index `n` if and only if `n = k`, and a repeated `getTCO(n)` returns that same
block if and only if `n = k`; for `n > k` it creates another block, and the
collection then has `k + 2` entries. -/
theorem getTCO_created_at_end (t : track) (ticksPerTact : tick) (st : tcoStore)
    (_new _new2 : tcoPtr) (n : Int) (hn : t.numOfTCOs ≤ n)
    (hfresh : _new ∉ t.m_trackContentObjects) (hne : _new2 ≠ _new) :
    ∃ t2 st2, t.getTCO ticksPerTact st _new n = some (_new, t2, st2) ∧
      t2.m_trackContentObjects.index t.numOfTCOs = some _new ∧
      (t2.getTCONum _new).2 = t.numOfTCOs ∧
      (t2.m_trackContentObjects.index n = some _new ↔ n = t.numOfTCOs) ∧
      ∃ p t3 st3, t2.getTCO ticksPerTact st2 _new2 n = some (p, t3, st3) ∧
        (p = _new ↔ n = t.numOfTCOs) ∧
        t3.numOfTCOs = (if n = t.numOfTCOs then t.numOfTCOs + 1 else t.numOfTCOs + 2) := by
  have hge : ¬ n < (t.m_trackContentObjects.length : Int) := not_lt.mpr hn
  have hblocks : (t.createTCO st _new (n * ticksPerTact)).1.m_trackContentObjects =
      t.m_trackContentObjects ++ [_new] := rfl
  have hidx : tcoVector.index (t.m_trackContentObjects ++ [_new]) t.numOfTCOs = some _new :=
    index_append_length _ _
  refine ⟨(t.createTCO st _new (n * ticksPerTact)).1,
    (t.createTCO st _new (n * ticksPerTact)).2, ?_, ?_, ?_, ?_, ?_⟩
  · unfold getTCO; rw [if_neg hge]
  · rw [hblocks]; exact hidx
  · unfold getTCONum
    rw [hblocks, qFind_append_fresh _ _ hfresh]
    simp [numOfTCOs]
  · rw [hblocks]
    constructor
    · intro h
      have hnot : ¬ (n < 0 ∨ ((t.m_trackContentObjects ++ [_new]).length : Int) ≤ n) := by
        rw [← index_eq_none, h]; simp
      unfold numOfTCOs at hn ⊢
      simp only [List.length_append, List.length_singleton, Nat.cast_add, Nat.cast_one] at hnot
      omega
    · intro h; rw [h]; exact hidx
  · by_cases hk : n = t.numOfTCOs
    · refine ⟨_new, (t.createTCO st _new (n * ticksPerTact)).1,
        (t.createTCO st _new (n * ticksPerTact)).2, ?_, by simp [hk], ?_⟩
      · unfold getTCO
        have hlt : n < (((t.createTCO st _new (n * ticksPerTact)).1.m_trackContentObjects.length
            : Nat) : Int) := by
          rw [hblocks, hk]
          unfold numOfTCOs
          simp
        rw [if_pos hlt, hblocks, hk, hidx]
      · rw [if_pos hk]
        unfold numOfTCOs
        rw [hblocks]
        simp
    · refine ⟨_new2,
        ((t.createTCO st _new (n * ticksPerTact)).1.createTCO
          (t.createTCO st _new (n * ticksPerTact)).2 _new2 (n * ticksPerTact)).1,
        ((t.createTCO st _new (n * ticksPerTact)).1.createTCO
          (t.createTCO st _new (n * ticksPerTact)).2 _new2 (n * ticksPerTact)).2,
        ?_, by simp [hk, hne], ?_⟩
      · unfold getTCO
        have hge2 : ¬ n < (((t.createTCO st _new (n * ticksPerTact)).1.m_trackContentObjects.length
            : Nat) : Int) := by
          rw [hblocks]
          unfold numOfTCOs at hn hk
          simp only [List.length_append, List.length_singleton, Nat.cast_add, Nat.cast_one]
          omega
        rw [if_neg hge2]
      · rw [if_neg hk]
        unfold numOfTCOs
        rw [createTCO_track, addTCO, hblocks]
        simp

/-- Instance of C30: the sample track (4 blocks) asked for block 4 and for
block 6; the blocks created are put at the addresses 9 and 10. -/
theorem getTCO_created_at_end_witness :
    sampleTrack.numOfTCOs ≤ 6 ∧ (9 : tcoPtr) ∉ sampleTrack.m_trackContentObjects ∧
    (10 : tcoPtr) ≠ 9 ∧
    (∃ t2 st2, sampleTrack.getTCO 192 sampleBlocks 9 6 = some (9, t2, st2) ∧
      t2.m_trackContentObjects.index sampleTrack.numOfTCOs = some 9 ∧
      (t2.getTCONum 9).2 = sampleTrack.numOfTCOs ∧
      (t2.m_trackContentObjects.index 6 = some 9 ↔ (6 : Int) = sampleTrack.numOfTCOs) ∧
      ∃ p t3 st3, t2.getTCO 192 st2 10 6 = some (p, t3, st3) ∧
        (p = 9 ↔ (6 : Int) = sampleTrack.numOfTCOs) ∧
        t3.numOfTCOs =
          (if (6 : Int) = sampleTrack.numOfTCOs then sampleTrack.numOfTCOs + 1
            else sampleTrack.numOfTCOs + 2)) ∧
    (∃ t2 st2, sampleTrack.getTCO 192 sampleBlocks 9 4 = some (9, t2, st2) ∧
      t2.m_trackContentObjects.index sampleTrack.numOfTCOs = some 9 ∧
      (t2.getTCONum 9).2 = sampleTrack.numOfTCOs ∧
      (t2.m_trackContentObjects.index 4 = some 9 ↔ (4 : Int) = sampleTrack.numOfTCOs) ∧
      ∃ p t3 st3, t2.getTCO 192 st2 10 4 = some (p, t3, st3) ∧
        (p = 9 ↔ (4 : Int) = sampleTrack.numOfTCOs) ∧
        t3.numOfTCOs =
          (if (4 : Int) = sampleTrack.numOfTCOs then sampleTrack.numOfTCOs + 1
            else sampleTrack.numOfTCOs + 2)) :=
  ⟨by decide, by decide, by decide,
    getTCO_created_at_end sampleTrack 192 sampleBlocks 9 10 6
      (by decide) (by decide) (by decide),
    getTCO_created_at_end sampleTrack 192 sampleBlocks 9 10 4
      (by decide) (by decide) (by decide)⟩

/-! ## swapPositionOfTCOs: start positions by index -/

theorem swapPositionOfTCOs_eval (t : track) (st : tcoStore) (i j : Nat) (pa pb : tcoPtr)
    (ha : t.m_trackContentObjects[i]? = some pa)
    (hb : t.m_trackContentObjects[j]? = some pb) :
    t.swapPositionOfTCOs st (i : Int) (j : Int) =
      some ({ t with m_trackContentObjects := (t.m_trackContentObjects.set i pb).set j pa },
        swappedStore st pa pb) := by
  by_cases hij : i = j
  · subst hij
    have hab : pa = pb := Option.some.inj (ha.symm.trans hb)
    subst hab
    have hi : i < t.m_trackContentObjects.length := (List.getElem?_eq_some.mp ha).1
    have h1 : ((t.m_trackContentObjects.set i pa).set i pa)[i]? = some pa := by
      rw [List.getElem?_set_self (by rw [List.length_set]; exact hi)]
    unfold swapPositionOfTCOs swappedStore
    simp only [index_natCast, Int.toNat_ofNat, ha, h1, Option.bind_eq_bind,
      Option.some_bind, Option.pure_def]
  · exact swapPositionOfTCOs_nat t st i j pa pb hij ha hb

theorem swappedStore_first (st : tcoStore) (pa pb : tcoPtr) :
    (swappedStore st pa pb pa).m_startPosition = (st pb).m_startPosition := by
  unfold swappedStore
  rw [setAt_same, trackContentObject.movePosition_start]
  rfl

theorem swappedStore_second (st : tcoStore) (pa pb : tcoPtr) :
    (swappedStore st pa pb pb).m_startPosition = (st pa).m_startPosition := by
  unfold swappedStore
  by_cases h : pb = pa
  · rw [h, setAt_same, trackContentObject.movePosition_start]
    rfl
  · rw [setAt_other _ _ _ _ h, setAt_same, trackContentObject.movePosition_start]
    rfl

theorem swappedStore_other (st : tcoStore) (pa pb q : tcoPtr) (ha : q ≠ pa) (hb : q ≠ pb) :
    swappedStore st pa pb q = st q := by
  unfold swappedStore
  rw [setAt_other _ _ _ _ ha, setAt_other _ _ _ _ hb]

theorem swappedStore_twice (st : tcoStore) (pa pb q : tcoPtr) :
    (swappedStore (swappedStore st pa pb) pb pa q).m_startPosition =
      (st q).m_startPosition := by
  by_cases h1 : q = pb
  · rw [h1, swappedStore_first, swappedStore_first]
  · by_cases h2 : q = pa
    · rw [h2, swappedStore_second, swappedStore_second]
    · rw [swappedStore_other _ _ _ _ h1 h2, swappedStore_other _ _ _ _ h2 h1]

theorem getElem?_inj_of_nodup (v : tcoVector) (hnd : v.Nodup) (n m : Nat) (x : tcoPtr)
    (hn : v[n]? = some x) (hm : v[m]? = some x) : n = m := by
  obtain ⟨h1, e1⟩ := List.getElem?_eq_some.mp hn
  obtain ⟨h2, e2⟩ := List.getElem?_eq_some.mp hm
  exact (hnd.getElem_inj_iff).mp (e1.trans e2.symm)

theorem swapped_starts_by_index (v : tcoVector) (st : tcoStore) (i j : Nat)
    (pa pb : tcoPtr) (hnd : v.Nodup) (ha : v[i]? = some pa) (hb : v[j]? = some pb) :
    ((v.set i pb).set j pa).map (fun p => (swappedStore st pa pb p).startPosition) =
      v.map (fun p => (st p).startPosition) := by
  have hi : i < v.length := (List.getElem?_eq_some.mp ha).1
  have hj : j < v.length := (List.getElem?_eq_some.mp hb).1
  apply List.ext_getElem?
  intro n
  rw [List.getElem?_map, List.getElem?_map]
  by_cases hnj : n = j
  · subst hnj
    rw [List.getElem?_set_self (by rw [List.length_set]; exact hj), hb]
    simp only [Option.map_some']
    exact congrArg some (swappedStore_first st pa pb)
  · rw [List.getElem?_set_ne (fun e => hnj e.symm)]
    by_cases hni : n = i
    · subst hni
      rw [List.getElem?_set_self hi, ha]
      simp only [Option.map_some']
      exact congrArg some (swappedStore_second st pa pb)
    · rw [List.getElem?_set_ne (fun e => hni e.symm)]
      cases hq : v[n]? with
      | none => rfl
      | some q =>
        have hqa : q ≠ pa := fun e => hni (getElem?_inj_of_nodup v hnd n i pa (e ▸ hq) ha)
        have hqb : q ≠ pb := fun e => hnj (getElem?_inj_of_nodup v hnd n j pb (e ▸ hq) hb)
        simp only [Option.map_some']
        rw [swappedStore_other st pa pb q hqa hqb]

theorem set_set_back (v : tcoVector) (i j : Nat) (pa pb : tcoPtr)
    (ha : v[i]? = some pa) (hb : v[j]? = some pb) :
    (((v.set i pb).set j pa).set i pa).set j pb = v := by
  have hi : i < v.length := (List.getElem?_eq_some.mp ha).1
  have hj : j < v.length := (List.getElem?_eq_some.mp hb).1
  apply List.ext_getElem?
  intro n
  by_cases hnj : n = j
  · subst hnj
    rw [List.getElem?_set_self (by simp only [List.length_set]; exact hj), hb]
  · rw [List.getElem?_set_ne (fun e => hnj e.symm)]
    by_cases hni : n = i
    · subst hni
      rw [List.getElem?_set_self (by simp only [List.length_set]; exact hi), ha]
    · rw [List.getElem?_set_ne (fun e => hni e.symm),
        List.getElem?_set_ne (fun e => hnj e.symm),
        List.getElem?_set_ne (fun e => hni e.symm)]

/-- C28: on a track whose collection holds every block once, for valid indices
`a` and `b`, `swapPositionOfTCOs(a, b)` leaves the sequence of start positions
read by collection index as it was, and a second `swapPositionOfTCOs(a, b)`
puts the collection back in its original order and gives every block the start
position it had. -/
theorem swapPositionOfTCOs_keeps_starts (t : track) (st : tcoStore) (a b : Int)
    (ha0 : 0 ≤ a) (ha : a < t.numOfTCOs) (hb0 : 0 ≤ b) (hb : b < t.numOfTCOs)
    (hnd : t.m_trackContentObjects.Nodup) :
    ∃ t2 st2, t.swapPositionOfTCOs st a b = some (t2, st2) ∧
      t2.m_trackContentObjects.map (fun p => (st2 p).startPosition) =
        t.m_trackContentObjects.map (fun p => (st p).startPosition) ∧
      ∃ t3 st3, t2.swapPositionOfTCOs st2 a b = some (t3, st3) ∧
        t3.m_trackContentObjects = t.m_trackContentObjects ∧
        (∀ q, (st3 q).startPosition = (st q).startPosition) := by
  obtain ⟨i, rfl⟩ := Int.eq_ofNat_of_zero_le ha0
  obtain ⟨j, rfl⟩ := Int.eq_ofNat_of_zero_le hb0
  have hi : i < t.m_trackContentObjects.length := by
    unfold numOfTCOs at ha; exact_mod_cast ha
  have hj : j < t.m_trackContentObjects.length := by
    unfold numOfTCOs at hb; exact_mod_cast hb
  have hpa := List.getElem?_eq_getElem hi
  have hpb := List.getElem?_eq_getElem hj
  have h2a : ((t.m_trackContentObjects.set i t.m_trackContentObjects[j]).set j
      t.m_trackContentObjects[i])[i]? = some (if i = j then t.m_trackContentObjects[i]
        else t.m_trackContentObjects[j]) := by
    by_cases hij : i = j
    · subst hij
      rw [List.getElem?_set_self (by rw [List.length_set]; exact hi), if_pos rfl]
    · rw [List.getElem?_set_ne (fun e => hij e.symm), List.getElem?_set_self hi, if_neg hij]
  have h2a' : ((t.m_trackContentObjects.set i t.m_trackContentObjects[j]).set j
      t.m_trackContentObjects[i])[i]? = some t.m_trackContentObjects[j] := by
    rw [h2a]
    by_cases hij : i = j
    · subst hij; rw [if_pos rfl]
    · rw [if_neg hij]
  have h2b : ((t.m_trackContentObjects.set i t.m_trackContentObjects[j]).set j
      t.m_trackContentObjects[i])[j]? = some t.m_trackContentObjects[i] :=
    List.getElem?_set_self (by rw [List.length_set]; exact hj)
  refine ⟨_, _, swapPositionOfTCOs_eval t st i j _ _ hpa hpb,
    swapped_starts_by_index _ st i j _ _ hnd hpa hpb, _, _,
    swapPositionOfTCOs_eval _ _ i j _ _ h2a' h2b, ?_, ?_⟩
  · exact set_set_back _ i j _ _ hpa hpb
  · intro q
    exact swappedStore_twice st _ _ q

/-- Instance of C28: indices 0 and 3 of the sample track (blocks 2 and 3, with
starts 30 and 12). -/
theorem swapPositionOfTCOs_keeps_starts_witness :
    (0 : Int) ≤ 0 ∧ (0 : Int) < sampleTrack.numOfTCOs ∧ (0 : Int) ≤ 3 ∧
    (3 : Int) < sampleTrack.numOfTCOs ∧ sampleTrack.m_trackContentObjects.Nodup ∧
    (∃ t2 st2, sampleTrack.swapPositionOfTCOs sampleBlocks 0 3 = some (t2, st2) ∧
      t2.m_trackContentObjects.map (fun p => (st2 p).startPosition) =
        sampleTrack.m_trackContentObjects.map (fun p => (sampleBlocks p).startPosition) ∧
      ∃ t3 st3, t2.swapPositionOfTCOs st2 0 3 = some (t3, st3) ∧
        t3.m_trackContentObjects = sampleTrack.m_trackContentObjects ∧
        (∀ q, (st3 q).startPosition = (sampleBlocks q).startPosition)) :=
  ⟨by decide, by decide, by decide, by decide, by decide,
    swapPositionOfTCOs_keeps_starts sampleTrack sampleBlocks 0 3
      (by decide) (by decide) (by decide) (by decide) (by decide)⟩

/-! ## Destruction of blocks: the destructor and the clearing loop -/

theorem removeTCO_last_length (t : track) (last : tcoPtr)
    (h : t.m_trackContentObjects.getLast? = some last) :
    (t.removeTCO last).m_trackContentObjects.length + 1 = t.m_trackContentObjects.length ∧
    (last :: (t.removeTCO last).m_trackContentObjects).Perm t.m_trackContentObjects := by
  have hm : last ∈ t.m_trackContentObjects := List.mem_of_getLast?_eq_some h
  obtain ⟨pre, post, hv, _, _, he⟩ := qFind_split _ last hm
  have hne : qFind t.m_trackContentObjects last ≠ t.m_trackContentObjects.length := by
    rw [Ne, qFind_eq_length]; exact fun x => x hm
  have hr : (t.removeTCO last).m_trackContentObjects = pre ++ post := by
    unfold removeTCO
    simp only [hne, ne_eq, not_false_eq_true, if_true]
    exact he
  rw [hr, hv]
  refine ⟨by simp only [List.length_append, List.length_cons]; omega, ?_⟩
  exact List.perm_middle.symm

theorem destructorLoop_spec (fuel : Nat) :
    ∀ (t : track) (deleted : List tcoPtr), t.m_trackContentObjects.length ≤ fuel →
      ∃ r, destructorLoop fuel t deleted = Except.ok r ∧
        r.1.m_trackContentObjects = [] ∧
        r.2.length = deleted.length + t.m_trackContentObjects.length ∧
        r.2.Perm (deleted ++ t.m_trackContentObjects) := by
  induction fuel with
  | zero =>
    intro t deleted h
    have hnil : t.m_trackContentObjects = [] := List.length_eq_zero.mp (Nat.le_zero.mp h)
    refine ⟨(t, deleted), ?_, hnil, by simp [hnil], by simp [hnil]⟩
    unfold destructorLoop
    rw [hnil]
  | succ k ih =>
    intro t deleted h
    unfold destructorLoop
    cases hl : t.m_trackContentObjects.getLast? with
    | none =>
      have hnil : t.m_trackContentObjects = [] := List.getLast?_eq_none_iff.mp hl
      exact ⟨(t, deleted), rfl, hnil, by simp [hnil], by simp [hnil]⟩
    | some last =>
      obtain ⟨hlen, hperm⟩ := removeTCO_last_length t last hl
      obtain ⟨r, hr, h1, h2, h3⟩ := ih (t.removeTCO last) (deleted ++ [last]) (by omega)
      refine ⟨r, hr, h1, ?_, ?_⟩
      · rw [h2, List.length_append, List.length_singleton]; omega
      · refine h3.trans ?_
        rw [List.append_assoc]
        exact List.Perm.append_left _ hperm

theorem destructorLoop_short (fuel : Nat) :
    ∀ (t : track) (deleted : List tcoPtr), fuel < t.m_trackContentObjects.length →
      destructorLoop fuel t deleted = Except.error fault.outOfFuel := by
  induction fuel with
  | zero =>
    intro t deleted h
    unfold destructorLoop
    cases hv : t.m_trackContentObjects with
    | nil => rw [hv] at h; exact absurd h (Nat.lt_irrefl _)
    | cons x rest => rfl
  | succ k ih =>
    intro t deleted h
    unfold destructorLoop
    cases hl : t.m_trackContentObjects.getLast? with
    | none =>
      have hnil : t.m_trackContentObjects = [] := List.getLast?_eq_none_iff.mp hl
      rw [hnil] at h
      exact absurd h (Nat.not_lt_zero _)
    | some last =>
      obtain ⟨hlen, _⟩ := removeTCO_last_length t last hl
      exact ih (t.removeTCO last) (deleted ++ [last]) (by omega)

/-- C25: the destructor of a track runs to its end for every track: an
iteration of its loop, deleting the last block, takes exactly one entry out of
the collection; the loop ends with an empty collection after as many
iterations as the collection had entries (with less fuel than that the loop
of the model is not through), every entry having been deleted; the track is
taken out of the container's list after the loop. -/
theorem destructor_terminates (w : project) (self : trackPtr) :
    (∀ (t : track) (last : tcoPtr), t.m_trackContentObjects.getLast? = some last →
      (t.removeTCO last).numOfTCOs = t.numOfTCOs - 1) ∧
    (∃ r, destructorLoop (w.tracks self).m_trackContentObjects.length (w.tracks self) [] =
        Except.ok r ∧
      r.1.m_trackContentObjects = [] ∧
      r.2.length = (w.tracks self).m_trackContentObjects.length ∧
      r.2.Perm (w.tracks self).m_trackContentObjects) ∧
    (∀ fuel, fuel < (w.tracks self).m_trackContentObjects.length →
      destructorLoop fuel (w.tracks self) [] = Except.error fault.outOfFuel) ∧
    (∃ w2, destroy self w = Except.ok w2 ∧
      (w2.tracks self).m_trackContentObjects = [] ∧
      w2.container.m_tracks = w.container.m_tracks.erase self) := by
  obtain ⟨r, hr, h1, h2, h3⟩ := destructorLoop_spec
    (w.tracks self).m_trackContentObjects.length (w.tracks self) [] (Nat.le_refl _)
  refine ⟨?_, ⟨r, hr, h1, by simpa using h2, by simpa using h3⟩,
    fun fuel hf => destructorLoop_short fuel _ _ hf, ?_⟩
  · intro t last hl
    have := (removeTCO_last_length t last hl).1
    unfold numOfTCOs
    omega
  · refine ⟨{ w with tracks := setAt w.tracks self r.1,
                     container := w.container.removeTrack self }, ?_, ?_, rfl⟩
    · unfold destroy
      rw [hr]
    · simp only [setAt_same]
      exact h1

/-- C26 on the code: on a track with the one block 7 the clearing loop of
`loadSettings` deletes the block, whose destructor takes it out of the
collection, and then calls `erase` on the empty collection; on a track with the
blocks 7 and 8 it deletes block 7 and erases block 8 from the collection
without deleting it. -/
theorem clearLoop_erases_twice :
    clearLoop 1 { sampleTrack with m_trackContentObjects := [7] } [] =
      Except.error fault.eraseAtEnd ∧
    clearLoop 2 { sampleTrack with m_trackContentObjects := [7, 8] } [] =
      Except.ok ({ sampleTrack with m_trackContentObjects := [] }, [7]) ∧
    (sampleTrack.loadSettings sampleBlocks (sampleTrack.saveSettings sampleBlocks) 10).toOption.map
        (fun r => r.1.m_trackContentObjects) = some [10, 11, 12, 13] ∧
    (({ sampleTrack with m_trackContentObjects := [7] } : track).loadSettings sampleBlocks
        (sampleTrack.saveSettings sampleBlocks) 10).toOption.map
        (fun r => r.1.m_trackContentObjects) = none := by
  refine ⟨rfl, rfl, by decide, by decide⟩

end track

/-! ## trackContentWidget: undo of an added block and its redo -/

namespace trackContentWidget

theorem saveState_restoreState (b : trackContentObject) (e : tcoElement) :
    (b.restoreState e).saveState = e := by
  have h := track.tcoSummary_restoreState b e
  unfold tcoSummary at h
  simp only [Prod.mk.injEq] at h
  unfold trackContentObject.saveState
  rw [h.1, h.2.1, h.2.2]

theorem flipAction_add :
    flipAction widgetAction.AddTrackContentObject = widgetAction.RemoveTrackContentObject :=
  rfl

theorem flipAction_remove :
    flipAction widgetAction.RemoveTrackContentObject = widgetAction.AddTrackContentObject :=
  rfl

theorem redoStep_actionID (w : trackContentWidget) (e : widgetEntry) (_new : tcoPtr) :
    (w.redoStep e _new).map (fun y => y.2.actionID) =
      (w.redoStep e _new).map (fun _ => e.actionID) := by
  obtain ⟨a, d⟩ := e
  cases a with
  | other n => rfl
  | AddTrackContentObject =>
    simp only [redoStep, flipAction_add, undoStep]
    cases d.state <;> simp [flipAction_remove]
  | RemoveTrackContentObject =>
    simp only [redoStep, flipAction_remove, undoStep]
    cases (w.saveJournallingState false).getJournallingObject d.id <;>
      simp [flipAction_add]

/-- C22: `undoStep` on an `AddTrackContentObject` entry whose id names the
block `p` writes the saved state of `p` into the entry under "state", keeps the
"id", and schedules `p` for deletion, the track and the blocks being as before;
`redoStep` of the entry so changed creates a block on the track, at the new
address, restored from that state (same start position, length and mute flag
as `p` had), and returns the entry unchanged.  For every entry, `redoStep`
leaves the action kind as it was before the call. -/
theorem undo_add_then_redo (w : trackContentWidget) (e : widgetEntry)
    (p _new0 _new : tcoPtr) (hk : e.actionID = widgetAction.AddTrackContentObject)
    (hid : w.getJournallingObject e.data.id = some p) :
    (∃ w1 e1, w.undoStep e _new0 = some (w1, e1) ∧
      e1.actionID = e.actionID ∧ e1.data.id = e.data.id ∧
      e1.data.state = some (w.tcos p).saveState ∧
      w1.deleteLater = w.deleteLater ++ [p] ∧
      w1.getTrack = w.getTrack ∧ w1.tcos = w.tcos ∧
      w1.m_journalling = w.m_journalling ∧
      ∃ w2 e2, w1.redoStep e1 _new = some (w2, e2) ∧ e2 = e1 ∧
        w2.getTrack.m_trackContentObjects = w.getTrack.m_trackContentObjects ++ [_new] ∧
        tcoSummary (w2.tcos _new) = tcoSummary (w.tcos p) ∧
        (w2.tcos _new).saveState = (w.tcos p).saveState) ∧
    (∀ (x : trackContentWidget) (je : widgetEntry) (n : tcoPtr),
      (x.redoStep je n).map (fun y => y.2.actionID) =
        (x.redoStep je n).map (fun _ => je.actionID)) := by
  refine ⟨?_, redoStep_actionID⟩
  obtain ⟨a, d⟩ := e
  simp only at hk hid
  subst hk
  have hsum : tcoSummary
      ((((w.getTrack.createTCO w.tcos _new 0).2 _new).restoreState (w.tcos p).saveState)) =
      tcoSummary (w.tcos p) := by
    rw [track.tcoSummary_restoreState]; rfl
  refine ⟨{ w with deleteLater := w.deleteLater ++ [p] },
    { actionID := widgetAction.AddTrackContentObject,
      data := { d with state := some (w.tcos p).saveState } }, ?_, rfl, rfl, rfl, rfl, rfl,
    rfl, rfl,
    { w with
      deleteLater := w.deleteLater ++ [p]
      getTrack := (w.getTrack.createTCO w.tcos _new 0).1
      tcos := setAt (w.getTrack.createTCO w.tcos _new 0).2 _new
        (((w.getTrack.createTCO w.tcos _new 0).2 _new).restoreState (w.tcos p).saveState) },
    _, ?_, rfl, rfl, ?_, ?_⟩
  · simp [undoStep, saveJournallingState, restoreJournallingState, hid]
  · simp [redoStep, flipAction_add, flipAction_remove, undoStep, saveJournallingState,
      restoreJournallingState]
  · simp only [track.setAt_same]
    exact hsum
  · simp only [track.setAt_same]
    exact saveState_restoreState _ _

/-- Instance of C22: the entry of the sample widget for the block with journal
id 42 (block 1, start 0, length 20), undone and redone; the block recreated is
put at address 9. -/
theorem undo_add_then_redo_witness :
    (⟨widgetAction.AddTrackContentObject, ⟨42, none⟩⟩ : widgetEntry).actionID =
      widgetAction.AddTrackContentObject ∧
    sampleWidget.getJournallingObject 42 = some 1 ∧
    (∃ w1 e1,
      sampleWidget.undoStep ⟨widgetAction.AddTrackContentObject, ⟨42, none⟩⟩ 8 =
        some (w1, e1) ∧
      e1.actionID = widgetAction.AddTrackContentObject ∧ e1.data.id = 42 ∧
      e1.data.state = some (sampleWidget.tcos 1).saveState ∧
      w1.deleteLater = sampleWidget.deleteLater ++ [1] ∧
      w1.getTrack = sampleWidget.getTrack ∧ w1.tcos = sampleWidget.tcos ∧
      w1.m_journalling = sampleWidget.m_journalling ∧
      ∃ w2 e2, w1.redoStep e1 9 = some (w2, e2) ∧ e2 = e1 ∧
        w2.getTrack.m_trackContentObjects =
          sampleWidget.getTrack.m_trackContentObjects ++ [9] ∧
        tcoSummary (w2.tcos 9) = tcoSummary (sampleWidget.tcos 1) ∧
        (w2.tcos 9).saveState = (sampleWidget.tcos 1).saveState) :=
  ⟨rfl, rfl,
    (undo_add_then_redo sampleWidget ⟨widgetAction.AddTrackContentObject, ⟨42, none⟩⟩
      1 8 9 rfl rfl).1⟩

end trackContentWidget

/-! ## trackContentObjectView: journalling across press and release -/

namespace trackContentObjectView

/-- C24 on the code: a plain left click inside the resize grip of a view with
automatic resizing on, on a block with journalling enabled: `mousePressEvent`
switches journalling off and sets no action, so `mouseReleaseEvent` does not
switch it on again, and the flag is off after the release.  The same click on
a view with automatic resizing off, or left of the grip, leaves it on. -/
theorem press_release_leaves_journalling_off :
    autoResizeView.m_tco.isJournalling = true ∧
    (autoResizeView.mousePressEvent clickInGrip).m_action = viewAction.NoAction ∧
    ((autoResizeView.mousePressEvent clickInGrip).mouseReleaseEvent).m_tco.isJournalling =
      false ∧
    ((({ autoResizeView with m_autoResize := false } : trackContentObjectView).mousePressEvent
      clickInGrip).mouseReleaseEvent).m_tco.isJournalling = true ∧
    ((autoResizeView.mousePressEvent
      { clickInGrip with x := 50 }).mouseReleaseEvent).m_tco.isJournalling = true := by
  decide

theorem movePosition_journalling (b : trackContentObject) (p : midiTime) :
    (b.movePosition p).m_journalling = b.m_journalling := by
  unfold trackContentObject.movePosition trackContentObject.addJournalEntry
  by_cases h : b.m_startPosition = p <;> by_cases hj : b.m_journalling = true <;> simp [h, hj]

theorem changeLength_journalling (b : trackContentObject) (n : midiTime) :
    (b.changeLength n).m_journalling = b.m_journalling := by
  unfold trackContentObject.changeLength trackContentObject.addJournalEntry
  by_cases h : b.m_length = n <;> by_cases hj : b.m_journalling = true <;> simp [h, hj]

theorem addJournalEntry_journalling (b : trackContentObject) (e : journalEntry) :
    (b.addJournalEntry e).m_journalling = b.m_journalling := by
  unfold trackContentObject.addJournalEntry
  split <;> rfl

/-- The one case in which a press and a release on an idle view, whose block
has journalling enabled, leave the journalling of the block switched off: a
left click without Shift or Ctrl, with no rubber band allowed, on movable
blocks, inside the resize grip of a view with automatic resizing on.  In every
other case the flag is on after the release, as it was before the press. -/
theorem press_release_journalling (v : trackContentObjectView) (c : mouseContext)
    (ha : v.m_action = viewAction.NoAction) (hj : v.m_tco.isJournalling = true) :
    ((v.mousePressEvent c).mouseReleaseEvent).m_tco.isJournalling = false ↔
      (c.button = mouseButton.LeftButton ∧ c.allowRubberband = false ∧
        c.isShiftPressed = false ∧ c.isCtrlPressed = false ∧ c.fixedTCOs = false ∧
        ¬ (c.x < c.width - RESIZE_GRIP_WIDTH) ∧ v.m_autoResize = true) := by
  have hj2 : v.m_tco.m_journalling = true := hj
  obtain ⟨button, x, ctrl, shift, allowR, rbActive, fixed, width, dragTime⟩ := c
  obtain ⟨tco, action, autoResize, initX, oldTime, sel, removed⟩ := v
  simp only at ha hj2
  subst ha
  by_cases hx : x < width - RESIZE_GRIP_WIDTH <;>
  cases button <;> cases ctrl <;> cases shift <;> cases allowR <;> cases rbActive <;>
    cases fixed <;> cases autoResize <;> cases sel <;>
    simp [mousePressEvent, mouseReleaseEvent, mouseMoveEvent, hj2, hx,
      trackContentObject.isJournalling, trackContentObject.setJournalling,
      trackContentObject.toggleMute, movePosition_journalling, changeLength_journalling,
      addJournalEntry_journalling]

end trackContentObjectView

end Lmms
